import Mathlib

set_option autoImplicit false

/-!
# Binding resolution and resource declaration of the RabbitMQ SDK

A shallow embedding of `rabbitmq/declare.go`, `rabbitmq/consumer.go`,
`rabbitmq/publisher.go` and `rabbitmq/shared.go`.

Conventions of the embedding:

* a Go slice that may be `nil` is an `Option (List α)`, `none` being `nil`;
  a slice that is only ranged over is a `List α`;
* a Go `error` is the message it carries, a `String`;
* a Go map that is only read or filled key by key is its lookup function;
* a pointer to a freshly allocated value is that value;
* functions of other packages (`strings.EqualFold`, `mapstructure.Decode`,
  `json.Unmarshal`, the configuration provider, the transport) are parameters.
-/

namespace Rabbitmq

/-! ## Data model (`types.go` and the transport's option types) -/

/-- Dynamic value of an `interface{}` field filled by `encoding/json`:
`nil`, `bool`, `float64` (kept as its bit pattern), `string`, `[]any` or
`map[string]any` (kept as its list of entries). -/
inductive Any where
  | null
  | bool (b : Bool)
  | float64 (bits : Nat)
  | str (s : String)
  | array (items : List Any)
  | object (fields : List (String × Any))

/-- Type `type ExchangeRouting interface{}`. -/
abbrev ExchangeRouting := Any

/-- Type `rmq.Table`, a `map[string]interface{}`; this package only stores strings in it. -/
abbrev Table := String → Option String

/-- Assignment `t[key] = value`. -/
def Table.set (t : Table) (key value : String) : Table :=
  fun k => if k = key then some value else t k

/-- Type `model.ResourceMetadata`; only the name is read. -/
structure ResourceMetadata where
  Name : String
deriving DecidableEq, Repr

/-- Type `ExchangeSpec` (the embedded `BaseSpec` is never read and is left out). -/
structure ExchangeSpec where
  ExchangeType : String
  Durable : Bool := false
  AutoDelete : Bool := false
deriving DecidableEq, Repr

/-- Type `QueueSpec` (the embedded `BaseSpec` is never read and is left out). -/
structure QueueSpec where
  Durable : Bool := false
  Exclusive : Bool := false
  AutoDelete : Bool := false
deriving DecidableEq, Repr

/-- Type `ResourceWithSpec[T]`. -/
structure ResourceWithSpec (T : Type) where
  Kind : String := ""
  Metadata : ResourceMetadata
  Spec : T
deriving DecidableEq, Repr

/-- Type `ExchangeResource`. -/
abbrev ExchangeResource := ResourceWithSpec ExchangeSpec

/-- Type `QueueResource`. -/
abbrev QueueResource := ResourceWithSpec QueueSpec

/-- Type `HeaderBindings`; the `Headers` map is given by its lookup function. -/
structure HeaderBindings where
  MatchAll : Bool
  Headers : String → Option String

/-- Type `ExchangeBindingSchema`, one binding rule (`Type_` is the field `Type`). -/
structure ExchangeBindingSchema where
  Name : String
  Type_ : String
  Routing : ExchangeRouting := Any.null

/-- Type `ExchangeBindingsSchema`, one binding group. -/
structure ExchangeBindingsSchema where
  Exchange : String
  Bindings : List ExchangeBindingSchema := []

/-- Type `BindingsSchema`. -/
structure BindingsSchema where
  Exchanges : List ExchangeBindingsSchema := []

/-- Type `BlockSpec`, the topology; `Bindings` is a pointer and may be `nil`
(the `Entities` field is never read and is left out). -/
structure BlockSpec where
  Consumers : List ExchangeResource := []
  Providers : List QueueResource := []
  Bindings : Option BindingsSchema := none

/-- Type `rmq.ExchangeOptions`, with the fields this package sets. -/
structure ExchangeOptions where
  Name : String
  Durable : Bool
  AutoDelete : Bool
  Kind : String
  Declare : Bool
deriving DecidableEq, Repr

/-- Type `rmq.QueueOptions`, with the fields this package sets. -/
structure QueueOptions where
  Name : String
  Durable : Bool
  AutoDelete : Bool
  Exclusive : Bool
  Declare : Bool
deriving DecidableEq, Repr

/-- Type `rmq.BindingOptions`, with the fields this package sets; `Args = none` is the `nil` table. -/
structure BindingOptions where
  Declare : Bool := false
  Args : Option Table := none

/-- Type `rmq.Binding`, which embeds `rmq.BindingOptions`. -/
structure Binding extends BindingOptions where
  DestinationName : String
  DestinationType : String
  ExchangeName : String
  RoutingKey : String := ""

/-- Constant `rmq.BindingTypeQueue`. -/
def BindingTypeQueue : String := "queue"

/-- Constant `rmq.BindingTypeExchange`. -/
def BindingTypeExchange : String := "exchange"

/-- Library functions used by `declare.go`.
`EqualFold` is `strings.EqualFold`; `Decode` is `mapstructure.Decode` into a
`HeaderBindings`, returning the decoded value or the error message. -/
structure External where
  EqualFold : String → String → Bool
  Decode : List (String × Any) → Except String HeaderBindings

/-- Outcome of a call: a normal return, or a run-time panic
(here always a nil pointer dereference). -/
inductive Outcome (α : Type) where
  | returned (a : α)
  | panicked

/-- The three results of `resolveBindings`. -/
structure ResolveResult where
  bindings : Option (List Binding)
  exchanges : Option (List ExchangeOptions)
  err : Option String

/-! ## `declare.go` -/

/-- Function `asExchange`. -/
def asExchange (exchange : ExchangeResource) : ExchangeOptions :=
  { Name := exchange.Metadata.Name
    Durable := exchange.Spec.Durable
    AutoDelete := exchange.Spec.AutoDelete
    Kind := exchange.Spec.ExchangeType
    Declare := true }

/-- Function `asQueue`. -/
def asQueue (queue : QueueResource) : QueueOptions :=
  let queueRequestName := if queue.Spec.Exclusive then "" else queue.Metadata.Name
  { Name := queueRequestName
    Durable := queue.Spec.Durable
    AutoDelete := queue.Spec.AutoDelete
    Exclusive := queue.Spec.Exclusive
    Declare := true }

/-- Function `getBindingHeaders`: the routing value must be a `map[string]any` that
decodes into a `HeaderBindings`; the headers are copied and `x-match` is
assigned last. -/
def getBindingHeaders (ext : External) (binding : ExchangeBindingSchema) : Except String Table :=
  match binding.Routing with
  | Any.object rawHeader =>
    match ext.Decode rawHeader with
    | Except.error err => Except.error ("error decoding headers binding: " ++ err)
    | Except.ok headerBindings =>
      let headers : Table := fun key => headerBindings.Headers key
      if headerBindings.MatchAll then
        Except.ok (headers.set "x-match" "all")
      else
        Except.ok (headers.set "x-match" "any")
  | _ => Except.error "invalid headers binding"

/-- The lookup loop of `resolveBindings` (lines 67-73): the first consumer
exchange definition whose name is the group's exchange. -/
def findExchange (consumers : List ExchangeResource) (name : String) : Option ExchangeResource :=
  match consumers with
  | [] => none
  | exchangeDefinition :: rest =>
    if exchangeDefinition.Metadata.Name = name then some exchangeDefinition
    else findExchange rest name

/-- The inner loop of `resolveBindings` (lines 85-122) over the rules of one
group, carrying `bindings` and `foundAnyBinding`; an error aborts the loop. -/
def resolveRules (ext : External) (destinationType destinationName : String)
    (exchange : ExchangeResource) :
    List ExchangeBindingSchema → List Binding → Bool → Except String (List Binding × Bool)
  | [], bindings, foundAnyBinding => Except.ok (bindings, foundAnyBinding)
  | binding :: rest, bindings, foundAnyBinding =>
    if (!ext.EqualFold binding.Type_ destinationType) || binding.Name != destinationName then
      resolveRules ext destinationType destinationName exchange rest bindings foundAnyBinding
    else
      match binding.Routing with
      | Any.str routingKey =>
        resolveRules ext destinationType destinationName exchange rest
          (bindings ++ [({ DestinationName := destinationName
                           DestinationType := destinationType
                           ExchangeName := exchange.Metadata.Name
                           RoutingKey := routingKey
                           Declare := true } : Binding)]) true
      | _ =>
        match getBindingHeaders ext binding with
        | Except.error err => Except.error err
        | Except.ok headers =>
          resolveRules ext destinationType destinationName exchange rest
            (bindings ++ [({ DestinationName := destinationName
                             DestinationType := destinationType
                             ExchangeName := exchange.Metadata.Name
                             Declare := true
                             Args := some headers } : Binding)]) true

/-- The outer loop of `resolveBindings` (lines 66-131) over the binding
groups, carrying `bindings` and `exchanges`. -/
def resolveGroups (ext : External) (consumers : List ExchangeResource)
    (destinationType destinationName : String) :
    List ExchangeBindingsSchema → List Binding → List ExchangeOptions → ResolveResult
  | [], bindings, exchanges =>
    { bindings := some bindings, exchanges := some exchanges, err := none }
  | exchangeBindings :: rest, bindings, exchanges =>
    match findExchange consumers exchangeBindings.Exchange with
    | none => { bindings := none, exchanges := none, err := some "exchange not found for binding" }
    | some exchange =>
      if exchangeBindings.Bindings.length = 0 then
        resolveGroups ext consumers destinationType destinationName rest bindings exchanges
      else
        match resolveRules ext destinationType destinationName exchange
            exchangeBindings.Bindings bindings false with
        | Except.error err => { bindings := none, exchanges := none, err := some err }
        | Except.ok (bindings, foundAnyBinding) =>
          if !foundAnyBinding then
            resolveGroups ext consumers destinationType destinationName rest bindings exchanges
          else
            resolveGroups ext consumers destinationType destinationName rest bindings
              (exchanges ++ [asExchange exchange])

/-- Function `resolveBindings`; dereferencing a `nil` `blockSpec.Bindings` panics. -/
def resolveBindings (ext : External) (blockSpec : BlockSpec)
    (destinationType destinationName : String) : Outcome ResolveResult :=
  match blockSpec.Bindings with
  | none => Outcome.panicked
  | some bindingsSchema =>
    Outcome.returned
      (resolveGroups ext blockSpec.Consumers destinationType destinationName
        bindingsSchema.Exchanges [] [])

/-! ## `consumer.go`, `publisher.go` and `shared.go`

Calls that reach outside the process (the configuration provider, the broker
connection, the transport constructors) act on a world of type `World`, which
is passed along explicitly. Output of `log.Printf` is not part of the model. -/

/-- Type `rmq.Action`, declared as `type Action int`. -/
abbrev Action := Int

/-- Constant `Ack`, first constant of the action block. -/
def Ack : Action := 0

/-- Constant `NackDiscard`: the message is dropped or dead-lettered. -/
def NackDiscard : Action := 1

/-- Constant `NackRequeue`: the message is delivered again. -/
def NackRequeue : Action := 2

/-- Constant `Manual`: acknowledgement is left to the user. -/
def Manual : Action := 3

/-- Type `amqp.Delivery`, with the fields the handler reads. -/
structure Delivery where
  ContentType : String
  Body : List UInt8
  AppId : String := ""

/-- Type `MessageHandler[T]`: the callback returns an action and an error (`none`
is `nil`), and may act on the world. -/
abbrev MessageHandler (T World : Type) :=
  T → Delivery → World → (Action × Option String) × World

/-- Function `createHandler`; `Unmarshal` is `json.Unmarshal` into the payload type. -/
def createHandler {T World : Type} (Unmarshal : List UInt8 → Except String T)
    (callback : MessageHandler T World) : Delivery → World → Action × World :=
  fun message world =>
    if message.ContentType != "application/json" then
      (NackDiscard, world)
    else
      match Unmarshal message.Body with
      | Except.error _ => (NackDiscard, world)
      | Except.ok payload =>
        match callback payload message world with
        | ((_, some _), world) => (NackRequeue, world)
        | ((action, none), world) => (action, world)

/-- Type `model.Endpoint`; only the resource name is read. -/
structure Endpoint where
  ResourceName : String

/-- Type `model.Connection`; only the two endpoints are read. -/
structure Connection where
  Provider : Endpoint
  Consumer : Endpoint

/-- Type `providers.BlockInstanceDetails`; `Block` stands for `instance.Block.Spec`. -/
structure BlockInstanceDetails (RawSpec : Type) where
  InstanceId : String
  Block : RawSpec
  Connections : List Connection := []

/-- Type `PublisherOptions`. -/
structure PublisherOptions where
  Confirm : Bool := false

/-- Type `Publisher[DataType, Headers, RoutingKey]`. -/
structure Publisher (RmqPublisher : Type) where
  appId : String
  publishers : List RmqPublisher

/-- The collaborators of the provisioner: the methods of
`providers.ConfigProvider`, `json.Marshal` and `json.Unmarshal` (into a
`BlockSpec`), `ConnectToInstance`, `rmq.NewConsumer` (connection, handler,
queue, consumer name, queue options, bindings, exchanges) and
`rmq.NewPublisher` (connection, confirm mode, exchange name, exchanges,
bindings). -/
structure Collaborators (World RawSpec Conn RmqConsumer RmqPublisher : Type) where
  GetInstanceForConsumer : String → World → Except String (BlockInstanceDetails RawSpec) × World
  GetInstancesForProvider :
    String → World → Except String (List (BlockInstanceDetails RawSpec)) × World
  GetInstanceId : World → String × World
  Marshal : RawSpec → Except String (List UInt8)
  Unmarshal : List UInt8 → Except String BlockSpec
  ConnectToInstance : String → World → Except String Conn × World
  NewConsumer : Conn → (Delivery → World → Action × World) → String → String → QueueOptions →
    List Binding → List ExchangeOptions → World → Except String RmqConsumer × World
  NewPublisher : Conn → Bool → String → List ExchangeOptions → List Binding → World →
    Except String RmqPublisher × World

/-- Function `toBlockSpec`: the block's spec is re-encoded as a `BlockSpec`, which is
rejected when consumers, providers or bindings are missing. -/
def toBlockSpec {World RawSpec Conn RmqConsumer RmqPublisher : Type}
    (env : Collaborators World RawSpec Conn RmqConsumer RmqPublisher)
    (instance_ : BlockInstanceDetails RawSpec) : Except String BlockSpec :=
  match env.Marshal instance_.Block with
  | Except.error err => Except.error err
  | Except.ok bytes =>
    match env.Unmarshal bytes with
    | Except.error err => Except.error ("error decoding block spec: " ++ err)
    | Except.ok blockSpec =>
      if blockSpec.Consumers.length == 0 || blockSpec.Providers.length == 0 ||
          (match blockSpec.Bindings with
           | none => true
           | some bindings => bindings.Exchanges.length == 0) then
        Except.error "invalid rabbitmq block definition. Missing consumers, providers and/or bindings"
      else
        Except.ok blockSpec

/-- Function `dereferenceSlice`: a slice of the length of the argument, `nil` giving the empty slice. -/
def dereferenceSlice {α : Type} (slice : Option (List α)) : List α :=
  match slice with
  | none => []
  | some values => values

/-- The inner loop of `CreateConsumer` (lines 50-56): the first queue
definition named as the connection's provider resource, if the connection's
consumer resource is the requested one. -/
def firstQueue (connection : Connection) (resourceName : String) :
    List QueueResource → Option QueueResource
  | [] => none
  | queue :: rest =>
    if queue.Metadata.Name = connection.Provider.ResourceName ∧
        connection.Consumer.ResourceName = resourceName then
      some queue
    else
      firstQueue connection resourceName rest

/-- The selection loop of `CreateConsumer` (lines 47-57), carrying `queueDefinitions`. -/
def selectQueues (providers : List QueueResource) (resourceName : String) :
    List Connection → List QueueResource → List QueueResource
  | [], queueDefinitions => queueDefinitions
  | connection :: rest, queueDefinitions =>
    match firstQueue connection resourceName providers with
    | some queue => selectQueues providers resourceName rest (queueDefinitions ++ [queue])
    | none => selectQueues providers resourceName rest queueDefinitions

/-- Function `CreateConsumer`; the two tests on `len(queueDefinitions)` are the
first two cases of the match on the selected definitions. -/
def CreateConsumer {T World RawSpec Conn RmqConsumer RmqPublisher : Type}
    (env : Collaborators World RawSpec Conn RmqConsumer RmqPublisher) (ext : External)
    (Unmarshal : List UInt8 → Except String T) (resourceName : String)
    (callback : MessageHandler T World) (world : World) :
    Outcome (Except String RmqConsumer × World) :=
  match env.GetInstanceForConsumer resourceName world with
  | (Except.error err, world) => Outcome.returned (Except.error err, world)
  | (Except.ok instance_, world) =>
    match toBlockSpec env instance_ with
    | Except.error err =>
      Outcome.returned (Except.error ("error decoding block spec: " ++ err), world)
    | Except.ok blockSpec =>
      match env.ConnectToInstance instance_.InstanceId world with
      | (Except.error err, world) => Outcome.returned (Except.error err, world)
      | (Except.ok conn, world) =>
        match selectQueues blockSpec.Providers resourceName instance_.Connections [] with
        | [] =>
          Outcome.returned
            (Except.error ("no queues found for provider: " ++ resourceName), world)
        | _ :: _ :: _ =>
          Outcome.returned
            (Except.error
              ("multiple defined queues found. Only 1 expected for provider: " ++ resourceName),
             world)
        | [queue] =>
          let queueName := queue.Metadata.Name
          let queueOptions := asQueue queue
          match resolveBindings ext blockSpec BindingTypeQueue queueName with
          | Outcome.panicked => Outcome.panicked
          | Outcome.returned resolved =>
            let bindings :=
              if queueOptions.Name = "" then
                resolved.bindings.map
                  (List.map (fun binding => { binding with DestinationName := "" }))
              else
                resolved.bindings
            match resolved.err with
            | some err =>
              Outcome.returned (Except.error ("error resolving bindings: " ++ err), world)
            | none =>
              match env.GetInstanceId world with
              | (instanceId, world) =>
                let consumerTag := instanceId ++ "_" ++ resourceName
                Outcome.returned
                  (env.NewConsumer conn (createHandler Unmarshal callback) queueOptions.Name
                    consumerTag queueOptions (dereferenceSlice bindings)
                    (dereferenceSlice resolved.exchanges) world)

/-- The inner loop of `CreatePublisherWithOptions` (lines 88-94): the first
exchange definition named as the connection's consumer resource, if the
connection's provider resource is the requested one. -/
def firstExchange (connection : Connection) (resourceName : String) :
    List ExchangeResource → Option ExchangeResource
  | [] => none
  | exchange :: rest =>
    if exchange.Metadata.Name = connection.Consumer.ResourceName ∧
        connection.Provider.ResourceName = resourceName then
      some exchange
    else
      firstExchange connection resourceName rest

/-- The selection loop of `CreatePublisherWithOptions` (lines 85-95), carrying
`exchangeDefinitions`. -/
def selectExchanges (consumers : List ExchangeResource) (resourceName : String) :
    List Connection → List ExchangeResource → List ExchangeResource
  | [], exchangeDefinitions => exchangeDefinitions
  | connection :: rest, exchangeDefinitions =>
    match firstExchange connection resourceName consumers with
    | some exchange =>
      selectExchanges consumers resourceName rest (exchangeDefinitions ++ [exchange])
    | none => selectExchanges consumers resourceName rest exchangeDefinitions

/-- The loop of `CreatePublisherWithOptions` over the selected exchange
definitions (lines 101-127), carrying `publishers`. -/
def publishExchanges {World RawSpec Conn RmqConsumer RmqPublisher : Type}
    (env : Collaborators World RawSpec Conn RmqConsumer RmqPublisher) (ext : External)
    (publishOptions : PublisherOptions) (blockSpec : BlockSpec) (conn : Conn) :
    List ExchangeResource → List RmqPublisher → World →
      Outcome (Except String (List RmqPublisher) × World)
  | [], publishers, world => Outcome.returned (Except.ok publishers, world)
  | exchangeDefinition :: rest, publishers, world =>
    let exchange := asExchange exchangeDefinition
    match resolveBindings ext blockSpec BindingTypeExchange exchange.Name with
    | Outcome.panicked => Outcome.panicked
    | Outcome.returned resolved =>
      match resolved.err with
      | some err =>
        Outcome.returned (Except.error ("error resolving bindings: " ++ err), world)
      | none =>
        let exchanges := some (dereferenceSlice resolved.exchanges ++ [exchange])
        let exchangeName := exchange.Name
        match env.NewPublisher conn publishOptions.Confirm exchangeName
            (dereferenceSlice exchanges) (dereferenceSlice resolved.bindings) world with
        | (Except.error err, world) =>
          Outcome.returned (Except.error ("error creating publisher: " ++ err), world)
        | (Except.ok publisher, world) =>
          publishExchanges env ext publishOptions blockSpec conn rest
            (publishers ++ [publisher]) world

/-- The loop of `CreatePublisherWithOptions` over the instances (lines
70-128), carrying the map `connections` (as its list of entries) and
`publishers`. -/
def publishInstances {World RawSpec Conn RmqConsumer RmqPublisher : Type}
    (env : Collaborators World RawSpec Conn RmqConsumer RmqPublisher) (ext : External)
    (resourceName : String) (publishOptions : PublisherOptions) :
    List (BlockInstanceDetails RawSpec) → List (String × Conn) → List RmqPublisher → World →
      Outcome (Except String (List RmqPublisher) × World)
  | [], _, publishers, world => Outcome.returned (Except.ok publishers, world)
  | instance_ :: rest, connections, publishers, world =>
    match toBlockSpec env instance_ with
    | Except.error err =>
      Outcome.returned (Except.error ("error decoding block spec: " ++ err), world)
    | Except.ok blockSpec =>
      let connected : Except String ((List (String × Conn) × Conn)) × World :=
        match connections.lookup instance_.InstanceId with
        | some conn => (Except.ok (connections, conn), world)
        | none =>
          match env.ConnectToInstance instance_.InstanceId world with
          | (Except.error err, world) =>
            (Except.error ("error connecting to instance: " ++ err), world)
          | (Except.ok conn, world) =>
            (Except.ok ((instance_.InstanceId, conn) :: connections, conn), world)
      match connected with
      | (Except.error err, world) => Outcome.returned (Except.error err, world)
      | (Except.ok (connections, conn), world) =>
        match selectExchanges blockSpec.Consumers resourceName instance_.Connections [] with
        | [] =>
          Outcome.returned
            (Except.error ("no exchange definitions found for provider " ++ resourceName), world)
        | exchangeDefinitions =>
          match publishExchanges env ext publishOptions blockSpec conn exchangeDefinitions
              publishers world with
          | Outcome.panicked => Outcome.panicked
          | Outcome.returned (Except.error err, world) =>
            Outcome.returned (Except.error err, world)
          | Outcome.returned (Except.ok publishers, world) =>
            publishInstances env ext resourceName publishOptions rest connections publishers
              world

/-- Function `CreatePublisherWithOptions`. -/
def CreatePublisherWithOptions {World RawSpec Conn RmqConsumer RmqPublisher : Type}
    (env : Collaborators World RawSpec Conn RmqConsumer RmqPublisher) (ext : External)
    (resourceName : String) (publishOptions : PublisherOptions) (world : World) :
    Outcome (Except String (Publisher RmqPublisher) × World) :=
  match env.GetInstancesForProvider resourceName world with
  | (Except.error err, world) =>
    Outcome.returned (Except.error ("error getting instances for provider: " ++ err), world)
  | (Except.ok instances, world) =>
    if instances.length = 0 then
      Outcome.returned
        (Except.error ("no instances found for provider: " ++ resourceName), world)
    else
      match publishInstances env ext resourceName publishOptions instances [] [] world with
      | Outcome.panicked => Outcome.panicked
      | Outcome.returned (Except.error err, world) => Outcome.returned (Except.error err, world)
      | Outcome.returned (Except.ok publishers, world) =>
        match env.GetInstanceId world with
        | (instanceId, world) =>
          Outcome.returned
            (Except.ok { appId := instanceId ++ "_" ++ resourceName, publishers := publishers },
             world)

/-- Function `CreatePublisher`. -/
def CreatePublisher {World RawSpec Conn RmqConsumer RmqPublisher : Type}
    (env : Collaborators World RawSpec Conn RmqConsumer RmqPublisher) (ext : External)
    (resourceName : String) (world : World) :
    Outcome (Except String (Publisher RmqPublisher) × World) :=
  CreatePublisherWithOptions env ext resourceName { Confirm := false } world

/-! ## The bindings of `CreateConsumer` as pointers

`resolveBindings` returns a `[]*rmq.Binding`. Here the pointed-to values live
in a store, a list of cells, and a pointer is the position of its cell. -/

/-- The store and the pointers after `resolveBindings` has allocated one cell
per binding, in order. -/
def allocateBindings (values : List Binding) : List Binding × List Nat :=
  (values, List.range values.length)

/-- The assignment `binding.DestinationName = ""` through a pointer. -/
def clearDestination : List Binding → Nat → List Binding
  | [], _ => []
  | value :: rest, 0 => { value with DestinationName := "" } :: rest
  | value :: rest, pointer + 1 => value :: clearDestination rest pointer

/-- The loop of `CreateConsumer` over the binding pointers (lines 75-77). -/
def clearDestinations : List Binding → List Nat → List Binding
  | store, [] => store
  | store, pointer :: rest => clearDestinations (clearDestination store pointer) rest

/-- Function `dereferenceSlice` on pointers into the store: the values pointed
to, in order; `none` when a pointer has no cell. -/
def dereferencePointers (store : List Binding) : List Nat → Option (List Binding)
  | [] => some []
  | pointer :: rest =>
    match store[pointer]?, dereferencePointers store rest with
    | some value, some values => some (value :: values)
    | _, _ => none

/-! ## Vocabulary of the properties -/

/-- A rule is for the destination: its type equals the requested type
case-insensitively and its name equals the requested name. -/
def ruleMatches (ext : External) (destinationType destinationName : String)
    (rule : ExchangeBindingSchema) : Bool :=
  ext.EqualFold rule.Type_ destinationType && decide (rule.Name = destinationName)

/-- The rules of a group that are for the destination, in rule order. -/
def matchingRules (ext : External) (destinationType destinationName : String)
    (group : ExchangeBindingsSchema) : List ExchangeBindingSchema :=
  group.Bindings.filter (ruleMatches ext destinationType destinationName)

/-- The groups with at least one rule for the destination, in group order. -/
def matchingGroups (ext : External) (destinationType destinationName : String)
    (groups : List ExchangeBindingsSchema) : List ExchangeBindingsSchema :=
  groups.filter (fun group => !(matchingRules ext destinationType destinationName group).isEmpty)

/-- Every (group, rule) pair whose rule is for the destination, in group
order and then rule order. -/
def matchingPairs (ext : External) (destinationType destinationName : String)
    (groups : List ExchangeBindingsSchema) : List (ExchangeBindingsSchema × ExchangeBindingSchema) :=
  groups.flatMap (fun group =>
    (matchingRules ext destinationType destinationName group).map (fun rule => (group, rule)))

/-- The exchange name is the name of some consumer exchange definition. -/
def exchangeDefined (consumers : List ExchangeResource) (name : String) : Prop :=
  ∃ definition ∈ consumers, definition.Metadata.Name = name

/-- The binding `b` is the one the resolver builds for `rule` towards the
destination, from the exchange called `exchangeName`. -/
def Emits (ext : External) (destinationType destinationName exchangeName : String)
    (rule : ExchangeBindingSchema) (b : Binding) : Prop :=
  b.DestinationName = destinationName ∧ b.DestinationType = destinationType ∧
  b.ExchangeName = exchangeName ∧ b.Declare = true ∧
  ((∀ s, rule.Routing = Any.str s → b.RoutingKey = s ∧ b.Args = none) ∧
   ((∀ s, rule.Routing ≠ Any.str s) →
      b.RoutingKey = "" ∧ ∃ headers, getBindingHeaders ext rule = Except.ok headers ∧
        b.Args = some headers))

/-- Number of exchange definitions `CreatePublisherWithOptions` selects for an instance. -/
def selectedExchangeCount {World RawSpec Conn RmqConsumer RmqPublisher : Type}
    (env : Collaborators World RawSpec Conn RmqConsumer RmqPublisher) (resourceName : String)
    (instance_ : BlockInstanceDetails RawSpec) : Nat :=
  match toBlockSpec env instance_ with
  | Except.ok blockSpec =>
    (selectExchanges blockSpec.Consumers resourceName instance_.Connections []).length
  | Except.error _ => 0

/-! ## Reference instances of the library functions, used in concrete runs -/

/-- Lower-case form of an ASCII letter; any other character is unchanged. -/
def asciiLower (c : Char) : Char :=
  if 'A' ≤ c ∧ c ≤ 'Z' then Char.ofNat (c.toNat + 32) else c

/-- Function `strings.EqualFold` restricted to ASCII strings. -/
def asciiEqualFold (s t : String) : Bool :=
  s.data.map asciiLower == t.data.map asciiLower

/-- An entry of a `map[string]any` whose value is a string. -/
def stringEntry : String × Any → Option (String × String)
  | (key, Any.str value) => some (key, value)
  | _ => none

/-- Decoding of the `matchAll` entry: absent or `nil` leaves `false`, a
`bool` is taken, anything else is an error. -/
def decodeMatchAll (raw : List (String × Any)) : Except String Bool :=
  match raw.lookup "matchAll" with
  | none => Except.ok false
  | some Any.null => Except.ok false
  | some (Any.bool b) => Except.ok b
  | some _ => Except.error "'MatchAll' expected type 'bool'"

/-- Decoding of the `headers` entry: absent or `nil` leaves the map empty, a
map of strings is taken, anything else is an error. -/
def decodeHeaders (raw : List (String × Any)) : Except String (List (String × String)) :=
  match raw.lookup "headers" with
  | none => Except.ok []
  | some Any.null => Except.ok []
  | some (Any.object fields) =>
    if fields.all (fun field => (stringEntry field).isSome) then
      Except.ok (fields.filterMap stringEntry)
    else
      Except.error "'Headers' expected type 'string'"
  | some _ => Except.error "'Headers' expected a map"

/-- Function `mapstructure.Decode` into a `HeaderBindings`, on maps keyed by
`matchAll` and `headers` (error texts abbreviated). -/
def decodeHeaderBindings (raw : List (String × Any)) : Except String HeaderBindings :=
  match decodeMatchAll raw, decodeHeaders raw with
  | Except.ok matchAll, Except.ok headers =>
    Except.ok { MatchAll := matchAll, Headers := fun key => headers.lookup key }
  | Except.error err, _ => Except.error err
  | _, Except.error err => Except.error err

/-- The library functions used in concrete runs. -/
def library : External :=
  { EqualFold := asciiEqualFold, Decode := decodeHeaderBindings }

/-! ## Concrete topologies -/

/-- Exchange `orders` of kind `topic`. -/
def ordersExchange : ExchangeResource :=
  { Metadata := { Name := "orders" }, Spec := { ExchangeType := "topic" } }

/-- Exchange `audit` of kind `headers`. -/
def auditExchange : ExchangeResource :=
  { Metadata := { Name := "audit" }, Spec := { ExchangeType := "headers", Durable := true } }

/-- Queue `order-events`, durable and not exclusive. -/
def orderEventsQueue : QueueResource :=
  { Metadata := { Name := "order-events" }, Spec := { Durable := true } }

/-- Queue `replies`, exclusive. -/
def repliesQueue : QueueResource :=
  { Metadata := { Name := "replies" }, Spec := { Exclusive := true, AutoDelete := true } }

/-- Rule binding queue `order-events` with routing key `order.created`. -/
def orderCreatedRule : ExchangeBindingSchema :=
  { Name := "order-events", Type_ := "queue", Routing := Any.str "order.created" }

/-- Rule binding queue `order-events` on the headers `region = eu`, all required. -/
def regionRule : ExchangeBindingSchema :=
  { Name := "order-events", Type_ := "Queue",
    Routing := Any.object
      [("matchAll", Any.bool true), ("headers", Any.object [("region", Any.str "eu")])] }

/-- Rule as `regionRule` whose headers carry an `x-match` entry of their own. -/
def overridingRule : ExchangeBindingSchema :=
  { Name := "order-events", Type_ := "queue",
    Routing := Any.object
      [("matchAll", Any.bool false),
       ("headers", Any.object [("x-match", Any.str "all"), ("region", Any.str "eu")])] }

/-- Rule for queue `order-events` with no routing value. -/
def unroutedRule : ExchangeBindingSchema :=
  { Name := "order-events", Type_ := "queue" }

/-- One exchange `orders`, one queue `order-events`, one group binding the
queue to the exchange with routing key `order.created`. -/
def scenarioSpec : BlockSpec :=
  { Consumers := [ordersExchange]
    Providers := [orderEventsQueue]
    Bindings := some { Exchanges := [{ Exchange := "orders", Bindings := [orderCreatedRule] }] } }

/-- The scenario followed by a group with no rules that names the undefined exchange `missing`. -/
def danglingSpec : BlockSpec :=
  { Consumers := [ordersExchange]
    Providers := [orderEventsQueue]
    Bindings := some { Exchanges :=
      [{ Exchange := "orders", Bindings := [orderCreatedRule] },
       { Exchange := "missing", Bindings := [] }] } }

/-- A topology without a bindings section. -/
def unboundSpec : BlockSpec :=
  { Consumers := [ordersExchange], Providers := [orderEventsQueue] }

/-- Two groups that both name the exchange `orders`, each with one routing-key
rule for queue `order-events`. -/
def repeatedGroupSpec : BlockSpec :=
  { Consumers := [ordersExchange]
    Providers := [orderEventsQueue]
    Bindings := some { Exchanges :=
      [{ Exchange := "orders", Bindings := [orderCreatedRule] },
       { Exchange := "orders",
         Bindings := [{ Name := "order-events", Type_ := "queue",
                        Routing := Any.str "order.updated" }] }] } }

/-- Two groups that both name the exchange `orders`; the first has a rule for
queue `order-events`, the second a rule for queue `replies` only. -/
def partlyRepeatedSpec : BlockSpec :=
  { Consumers := [ordersExchange]
    Providers := [orderEventsQueue, repliesQueue]
    Bindings := some { Exchanges :=
      [{ Exchange := "orders", Bindings := [orderCreatedRule] },
       { Exchange := "orders",
         Bindings := [{ Name := "replies", Type_ := "queue", Routing := Any.str "reply" }] }] } }

/-- Two exchanges; `orders` has two rules for `order-events` and one for
another queue, `audit` has rules for other destinations only. -/
def mixedSpec : BlockSpec :=
  { Consumers := [ordersExchange, auditExchange]
    Providers := [orderEventsQueue, repliesQueue]
    Bindings := some { Exchanges :=
      [{ Exchange := "orders",
         Bindings := [orderCreatedRule,
                      { Name := "replies", Type_ := "queue", Routing := Any.str "reply" },
                      regionRule] },
       { Exchange := "audit",
         Bindings := [{ Name := "order-events", Type_ := "exchange", Routing := Any.str "x" }] }] } }

/-- A matching rule with a routing key followed by a matching rule without a routing value. -/
def brokenSpec : BlockSpec :=
  { Consumers := [ordersExchange, auditExchange]
    Providers := [orderEventsQueue]
    Bindings := some { Exchanges :=
      [{ Exchange := "orders", Bindings := [orderCreatedRule] },
       { Exchange := "audit", Bindings := [unroutedRule] }] } }

/-- The binding of the scenario: queue `order-events` bound to `orders` with key `order.created`. -/
def scenarioBinding : Binding :=
  { DestinationName := "order-events", DestinationType := "queue", ExchangeName := "orders",
    RoutingKey := "order.created", Declare := true }

/-- The result of resolving the scenario for queue `order-events`. -/
def scenarioResult : ResolveResult :=
  { bindings := some [scenarioBinding], exchanges := some [asExchange ordersExchange],
    err := none }

/-! ## Concrete collaborators -/

/-- An instance of the block `mixedSpec`: consumer `worker` is connected to
the queues `order-events` and `replies`, consumer `mailer` to `order-events`,
and provider `events` to the exchanges `orders` and `audit`. -/
def brokerInstance : BlockInstanceDetails Unit :=
  { InstanceId := "broker"
    Block := ()
    Connections :=
      [{ Provider := { ResourceName := "order-events" }, Consumer := { ResourceName := "worker" } },
       { Provider := { ResourceName := "replies" }, Consumer := { ResourceName := "worker" } },
       { Provider := { ResourceName := "order-events" }, Consumer := { ResourceName := "mailer" } },
       { Provider := { ResourceName := "events" }, Consumer := { ResourceName := "orders" } },
       { Provider := { ResourceName := "events" }, Consumer := { ResourceName := "audit" } }] }

/-- Collaborators that always answer with `brokerInstance` and `mixedSpec` and
never fail; the world counts the transport objects created so far, a consumer
is represented by its consumer name and a publisher by its exchange name. -/
def brokerCollaborators : Collaborators Nat Unit String String String :=
  { GetInstanceForConsumer := fun _ world => (Except.ok brokerInstance, world)
    GetInstancesForProvider := fun _ world => (Except.ok [brokerInstance], world)
    GetInstanceId := fun world => ("app", world)
    Marshal := fun _ => Except.ok []
    Unmarshal := fun _ => Except.ok mixedSpec
    ConnectToInstance := fun instanceId world => (Except.ok instanceId, world)
    NewConsumer := fun _ _ _ consumerTag _ _ _ world => (Except.ok consumerTag, world + 1)
    NewPublisher := fun _ _ exchangeName _ _ world => (Except.ok exchangeName, world + 1) }

/-- A callback that fails on every message; the world counts its invocations. -/
def failingCallback : MessageHandler Unit Nat :=
  fun _ _ calls => ((Ack, some "processing failed"), calls + 1)

/-- A stand-in for `json.Unmarshal` into an empty struct, as the payload type
`Unit`: it accepts the body `{}` (bytes 123, 125) and rejects every other
body, among them the empty body and the truncated body `{`. -/
def unmarshalUnit (body : List UInt8) : Except String Unit :=
  if body = [123, 125] then Except.ok () else Except.error "unexpected end of JSON input"

/-- An instance of the block `mixedSpec` in which the consumer `responder` is
connected to the exclusive queue `replies`. -/
def responderInstance : BlockInstanceDetails Unit :=
  { InstanceId := "broker"
    Block := ()
    Connections :=
      [{ Provider := { ResourceName := "replies" }, Consumer := { ResourceName := "responder" } },
       { Provider := { ResourceName := "order-events" },
         Consumer := { ResourceName := "mailer" } }] }

/-- Collaborators as `brokerCollaborators`, answering with `responderInstance`;
a consumer is represented by the bindings it was created with. -/
def recordingCollaborators : Collaborators Nat Unit String (List Binding) String :=
  { GetInstanceForConsumer := fun _ world => (Except.ok responderInstance, world)
    GetInstancesForProvider := fun _ world => (Except.ok [responderInstance], world)
    GetInstanceId := fun world => ("app", world)
    Marshal := fun _ => Except.ok []
    Unmarshal := fun _ => Except.ok mixedSpec
    ConnectToInstance := fun instanceId world => (Except.ok instanceId, world)
    NewConsumer := fun _ _ _ _ _ bindings _ world => (Except.ok bindings, world + 1)
    NewPublisher := fun _ _ exchangeName _ _ world => (Except.ok exchangeName, world + 1) }

/-- The binding of queue `replies` to `orders` as `resolveBindings` returns it. -/
def replyBinding : Binding :=
  { DestinationName := "replies", DestinationType := "queue", ExchangeName := "orders",
    RoutingKey := "reply", Declare := true }

/-! ## Auxiliary facts about the loops of `resolveBindings` -/

theorem findExchange_eq_none {consumers : List ExchangeResource} {name : String} :
    findExchange consumers name = none ↔ ¬ exchangeDefined consumers name := by
  induction consumers with
  | nil => simp [findExchange, exchangeDefined]
  | cons d rest ih =>
    unfold findExchange
    by_cases h : d.Metadata.Name = name
    · simp [h, exchangeDefined]
    · simp only [h, if_false, ih]
      simp [exchangeDefined, h]

theorem findExchange_eq_find (consumers : List ExchangeResource) (name : String) :
    findExchange consumers name
      = consumers.find? (fun definition => decide (definition.Metadata.Name = name)) := by
  induction consumers with
  | nil => rfl
  | cons d rest ih =>
    unfold findExchange
    by_cases h : d.Metadata.Name = name
    · simp [h]
    · simp [h, ih]

theorem findExchange_name {consumers : List ExchangeResource} {name : String}
    {exchange : ExchangeResource} (h : findExchange consumers name = some exchange) :
    exchange.Metadata.Name = name := by
  rw [findExchange_eq_find] at h
  simpa using List.find?_some h

theorem resolveRules_skip (ext : External) (dt dn : String) (exchange : ExchangeResource)
    (rule : ExchangeBindingSchema) (rest : List ExchangeBindingSchema) (bs : List Binding)
    (found : Bool) (h : ruleMatches ext dt dn rule = false) :
    resolveRules ext dt dn exchange (rule :: rest) bs found
      = resolveRules ext dt dn exchange rest bs found := by
  have hc : ((!ext.EqualFold rule.Type_ dt) || rule.Name != dn) = true := by
    simp only [ruleMatches, Bool.and_eq_false_iff, decide_eq_false_iff_not] at h
    rcases h with h | h
    · simp [h]
    · simp [h]
  simp only [resolveRules, hc, if_true]

theorem ruleMatches_cond {ext : External} {dt dn : String} {rule : ExchangeBindingSchema}
    (h : ruleMatches ext dt dn rule = true) :
    ((!ext.EqualFold rule.Type_ dt) || rule.Name != dn) = false := by
  simp only [ruleMatches, Bool.and_eq_true, decide_eq_true_eq] at h
  simp [h.1, h.2]

theorem resolveRules_str (ext : External) (dt dn : String) (exchange : ExchangeResource)
    (rule : ExchangeBindingSchema) (rest : List ExchangeBindingSchema) (bs : List Binding)
    (found : Bool) (h : ruleMatches ext dt dn rule = true) (s : String)
    (hs : rule.Routing = Any.str s) :
    resolveRules ext dt dn exchange (rule :: rest) bs found
      = resolveRules ext dt dn exchange rest
          (bs ++ [({ DestinationName := dn, DestinationType := dt,
                     ExchangeName := exchange.Metadata.Name, RoutingKey := s,
                     Declare := true } : Binding)]) true := by
  rw [resolveRules]
  simp only [ruleMatches_cond h, hs]
  rfl

theorem resolveRules_headers (ext : External) (dt dn : String) (exchange : ExchangeResource)
    (rule : ExchangeBindingSchema) (rest : List ExchangeBindingSchema) (bs : List Binding)
    (found : Bool) (h : ruleMatches ext dt dn rule = true)
    (hs : ∀ s, rule.Routing ≠ Any.str s) :
    resolveRules ext dt dn exchange (rule :: rest) bs found
      = match getBindingHeaders ext rule with
        | Except.error err => Except.error err
        | Except.ok headers =>
          resolveRules ext dt dn exchange rest
            (bs ++ [({ DestinationName := dn, DestinationType := dt,
                       ExchangeName := exchange.Metadata.Name,
                       Declare := true, Args := some headers } : Binding)]) true := by
  rw [resolveRules]
  simp only [ruleMatches_cond h]
  cases hR : rule.Routing with
  | str s => exact absurd hR (hs s)
  | _ => rfl

theorem resolveRules_ok (ext : External) (dt dn : String) (exchange : ExchangeResource) :
    ∀ (rules : List ExchangeBindingSchema) (bs : List Binding) (found : Bool)
      (bs' : List Binding) (found' : Bool),
      resolveRules ext dt dn exchange rules bs found = Except.ok (bs', found') →
      ∃ new, bs' = bs ++ new ∧
        found' = (found || !(rules.filter (ruleMatches ext dt dn)).isEmpty) ∧
        List.Forall₂ (Emits ext dt dn exchange.Metadata.Name)
          (rules.filter (ruleMatches ext dt dn)) new := by
  intro rules
  induction rules with
  | nil =>
    intro bs found bs' found' h
    simp only [resolveRules, Except.ok.injEq, Prod.mk.injEq] at h
    exact ⟨[], by simp [h.1], by simp [h.2], by simp⟩
  | cons rule rest ih =>
    intro bs found bs' found' h
    cases hm : ruleMatches ext dt dn rule with
    | false =>
      rw [resolveRules_skip ext dt dn exchange rule rest bs found hm] at h
      obtain ⟨new, h1, h2, h3⟩ := ih bs found bs' found' h
      exact ⟨new, h1, by simpa [List.filter_cons, hm] using h2,
        by simpa [List.filter_cons, hm] using h3⟩
    | true =>
      by_cases hs : ∃ s, rule.Routing = Any.str s
      · obtain ⟨s, hs⟩ := hs
        rw [resolveRules_str ext dt dn exchange rule rest bs found hm s hs] at h
        obtain ⟨new, h1, _, h3⟩ := ih _ true bs' found' h
        refine ⟨_ :: new, by simpa using h1, ?_, ?_⟩
        · simp_all [List.filter_cons]
        · simp only [List.filter_cons, hm, if_true]
          refine List.Forall₂.cons ⟨rfl, rfl, rfl, rfl, ?_, ?_⟩ h3
          · intro s' hs'
            rw [hs] at hs'
            cases hs'
            exact ⟨rfl, rfl⟩
          · intro hne
            exact absurd hs (hne s)
      · have hs' : ∀ s, rule.Routing ≠ Any.str s := fun s hc => hs ⟨s, hc⟩
        rw [resolveRules_headers ext dt dn exchange rule rest bs found hm hs'] at h
        cases hh : getBindingHeaders ext rule with
        | error e => simp [hh] at h
        | ok headers =>
          simp only [hh] at h
          obtain ⟨new, h1, _, h3⟩ := ih _ true bs' found' h
          refine ⟨_ :: new, by simpa using h1, ?_, ?_⟩
          · simp_all [List.filter_cons]
          · simp only [List.filter_cons, hm, if_true]
            refine List.Forall₂.cons ⟨rfl, rfl, rfl, rfl, ?_, ?_⟩ h3
            · intro s hc
              exact absurd hc (hs' s)
            · intro _
              exact ⟨rfl, headers, hh, rfl⟩

theorem resolveRules_no_match (ext : External) (dt dn : String) (exchange : ExchangeResource) :
    ∀ (rules : List ExchangeBindingSchema) (bs : List Binding) (found : Bool),
      (∀ rule ∈ rules, ruleMatches ext dt dn rule = false) →
      resolveRules ext dt dn exchange rules bs found = Except.ok (bs, found) := by
  intro rules
  induction rules with
  | nil => intro bs found _; rfl
  | cons rule rest ih =>
    intro bs found h
    rw [resolveRules_skip ext dt dn exchange rule rest bs found (h rule (List.mem_cons_self _ _))]
    exact ih bs found (fun r hr => h r (List.mem_cons_of_mem _ hr))

theorem resolveGroups_undefined (ext : External) (consumers : List ExchangeResource)
    (dt dn : String) (group : ExchangeBindingsSchema) (rest : List ExchangeBindingsSchema)
    (bs : List Binding) (es : List ExchangeOptions)
    (h : findExchange consumers group.Exchange = none) :
    resolveGroups ext consumers dt dn (group :: rest) bs es
      = { bindings := none, exchanges := none, err := some "exchange not found for binding" } := by
  rw [resolveGroups]
  simp only [h]

theorem resolveGroups_defined (ext : External) (consumers : List ExchangeResource)
    (dt dn : String) (group : ExchangeBindingsSchema) (rest : List ExchangeBindingsSchema)
    (bs : List Binding) (es : List ExchangeOptions) (exchange : ExchangeResource)
    (h : findExchange consumers group.Exchange = some exchange) :
    resolveGroups ext consumers dt dn (group :: rest) bs es
      = match resolveRules ext dt dn exchange group.Bindings bs false with
        | Except.error err => { bindings := none, exchanges := none, err := some err }
        | Except.ok (bs', found) =>
          if found then
            resolveGroups ext consumers dt dn rest bs' (es ++ [asExchange exchange])
          else
            resolveGroups ext consumers dt dn rest bs' es := by
  rw [resolveGroups]
  simp only [h]
  by_cases hlen : group.Bindings.length = 0
  · have hnil : group.Bindings = [] := List.length_eq_zero.1 hlen
    simp [hnil, resolveRules]
  · simp only [hlen, if_false]
    cases resolveRules ext dt dn exchange group.Bindings bs false with
    | error e => rfl
    | ok p =>
      obtain ⟨bs', found⟩ := p
      cases found <;> simp

theorem resolveGroups_shape (ext : External) (consumers : List ExchangeResource)
    (dt dn : String) :
    ∀ (groups : List ExchangeBindingsSchema) (bs : List Binding) (es : List ExchangeOptions),
      (∃ B E, resolveGroups ext consumers dt dn groups bs es
          = { bindings := some B, exchanges := some E, err := none }) ∨
      (∃ e, resolveGroups ext consumers dt dn groups bs es
          = { bindings := none, exchanges := none, err := some e }) := by
  intro groups
  induction groups with
  | nil => intro bs es; exact Or.inl ⟨bs, es, rfl⟩
  | cons group rest ih =>
    intro bs es
    cases hf : findExchange consumers group.Exchange with
    | none =>
      rw [resolveGroups_undefined ext consumers dt dn group rest bs es hf]
      exact Or.inr ⟨_, rfl⟩
    | some exchange =>
      rw [resolveGroups_defined ext consumers dt dn group rest bs es exchange hf]
      cases resolveRules ext dt dn exchange group.Bindings bs false with
      | error e => exact Or.inr ⟨e, rfl⟩
      | ok p =>
        obtain ⟨bs', found⟩ := p
        cases found
        · simpa using ih bs' es
        · simpa using ih bs' (es ++ [asExchange exchange])

theorem resolveGroups_ok (ext : External) (consumers : List ExchangeResource)
    (dt dn : String) :
    ∀ (groups : List ExchangeBindingsSchema) (bs : List Binding) (es : List ExchangeOptions),
      (resolveGroups ext consumers dt dn groups bs es).err = none →
      ∃ newB newE,
        resolveGroups ext consumers dt dn groups bs es
          = { bindings := some (bs ++ newB), exchanges := some (es ++ newE), err := none } ∧
        List.Forall₂ (fun p b => Emits ext dt dn p.1.Exchange p.2 b)
          (matchingPairs ext dt dn groups) newB ∧
        List.Forall₂ (fun group e => ∃ definition,
            findExchange consumers group.Exchange = some definition ∧ e = asExchange definition)
          (matchingGroups ext dt dn groups) newE ∧
        ∀ group ∈ groups, exchangeDefined consumers group.Exchange := by
  intro groups
  induction groups with
  | nil =>
    intro bs es _
    exact ⟨[], [], by simp [resolveGroups], by simp [matchingPairs], by simp [matchingGroups],
      by simp⟩
  | cons group rest ih =>
    intro bs es herr
    cases hf : findExchange consumers group.Exchange with
    | none =>
      rw [resolveGroups_undefined ext consumers dt dn group rest bs es hf] at herr
      cases herr
    | some exchange =>
      have hname := findExchange_name hf
      have hdef : exchangeDefined consumers group.Exchange := by
        by_contra hc
        rw [findExchange_eq_none.2 hc] at hf
        cases hf
      rw [resolveGroups_defined ext consumers dt dn group rest bs es exchange hf] at herr ⊢
      cases hr : resolveRules ext dt dn exchange group.Bindings bs false with
      | error e =>
        rw [hr] at herr
        cases herr
      | ok p =>
        obtain ⟨bs', found⟩ := p
        obtain ⟨new, hbs, hfound, hall⟩ := resolveRules_ok ext dt dn exchange _ _ _ _ _ hr
        rw [hname] at hall
        rw [hr] at herr
        simp only [Bool.false_or] at hfound
        have hpairs : matchingPairs ext dt dn (group :: rest)
            = (matchingRules ext dt dn group).map (fun rule => (group, rule))
              ++ matchingPairs ext dt dn rest := by
          simp [matchingPairs]
        have hallp : List.Forall₂ (fun p b => Emits ext dt dn p.1.Exchange p.2 b)
            ((matchingRules ext dt dn group).map (fun rule => (group, rule))) new := by
          rw [List.forall₂_map_left_iff]
          exact hall
        cases found with
        | false =>
          simp only [Bool.false_eq_true, if_false] at herr ⊢
          obtain ⟨newB, newE, hres, hB, hE, hD⟩ := ih bs' es herr
          refine ⟨new ++ newB, newE, ?_, ?_, ?_, ?_⟩
          · rw [hres, hbs, List.append_assoc]
          · rw [hpairs]
            exact List.rel_append hallp hB
          · have hg : (!(matchingRules ext dt dn group).isEmpty) = false := by
              rw [matchingRules]; exact hfound.symm
            simpa [matchingGroups, List.filter_cons, hg] using hE
          · intro g hg
            rcases List.mem_cons.1 hg with heq | hin
            · rw [heq]; exact hdef
            · exact hD g hin
        | true =>
          simp only [if_true] at herr ⊢
          obtain ⟨newB, newE, hres, hB, hE, hD⟩ := ih bs' (es ++ [asExchange exchange]) herr
          refine ⟨new ++ newB, asExchange exchange :: newE, ?_, ?_, ?_, ?_⟩
          · rw [hres, hbs, List.append_assoc, List.append_assoc]
            rfl
          · rw [hpairs]
            exact List.rel_append hallp hB
          · have hg : (!(matchingRules ext dt dn group).isEmpty) = true := by
              rw [matchingRules]; exact hfound.symm
            have hmg : matchingGroups ext dt dn (group :: rest)
                = group :: matchingGroups ext dt dn rest := by
              simp [matchingGroups, List.filter_cons, hg]
            rw [hmg]
            exact List.Forall₂.cons ⟨exchange, hf, rfl⟩ hE
          · intro g hg
            rcases List.mem_cons.1 hg with heq | hin
            · rw [heq]; exact hdef
            · exact hD g hin

theorem resolveRules_error_origin (ext : External) (dt dn : String) (exchange : ExchangeResource) :
    ∀ (rules : List ExchangeBindingSchema) (bs : List Binding) (found : Bool) (e : String),
      resolveRules ext dt dn exchange rules bs found = Except.error e →
      ∃ rule ∈ rules, ruleMatches ext dt dn rule = true ∧ (∀ s, rule.Routing ≠ Any.str s) ∧
        getBindingHeaders ext rule = Except.error e := by
  intro rules
  induction rules with
  | nil =>
    intro bs found e h
    simp [resolveRules] at h
  | cons rule rest ih =>
    intro bs found e h
    have lift : (∃ r ∈ rest, ruleMatches ext dt dn r = true ∧ (∀ s, r.Routing ≠ Any.str s) ∧
        getBindingHeaders ext r = Except.error e) →
        ∃ r ∈ rule :: rest, ruleMatches ext dt dn r = true ∧ (∀ s, r.Routing ≠ Any.str s) ∧
          getBindingHeaders ext r = Except.error e := by
      rintro ⟨r, hin, hr⟩
      exact ⟨r, List.mem_cons_of_mem _ hin, hr⟩
    cases hm : ruleMatches ext dt dn rule with
    | false =>
      rw [resolveRules_skip ext dt dn exchange rule rest bs found hm] at h
      exact lift (ih bs found e h)
    | true =>
      by_cases hs : ∃ s, rule.Routing = Any.str s
      · obtain ⟨s, hs⟩ := hs
        rw [resolveRules_str ext dt dn exchange rule rest bs found hm s hs] at h
        exact lift (ih _ _ e h)
      · have hs' : ∀ s, rule.Routing ≠ Any.str s := fun s hc => hs ⟨s, hc⟩
        rw [resolveRules_headers ext dt dn exchange rule rest bs found hm hs'] at h
        cases hh : getBindingHeaders ext rule with
        | error e' =>
          simp only [hh, Except.error.injEq] at h
          subst h
          exact ⟨rule, List.mem_cons_self _ _, hm, hs', hh⟩
        | ok headers =>
          simp only [hh] at h
          exact lift (ih _ _ e h)

theorem resolveGroups_error_origin (ext : External) (consumers : List ExchangeResource)
    (dt dn : String) :
    ∀ (groups : List ExchangeBindingsSchema) (bs : List Binding) (es : List ExchangeOptions)
      (e : String),
      (∀ group ∈ groups, exchangeDefined consumers group.Exchange) →
      (resolveGroups ext consumers dt dn groups bs es).err = some e →
      ∃ group ∈ groups, ∃ rule ∈ group.Bindings, ruleMatches ext dt dn rule = true ∧
        (∀ s, rule.Routing ≠ Any.str s) ∧ getBindingHeaders ext rule = Except.error e := by
  intro groups
  induction groups with
  | nil =>
    intro bs es e _ h
    simp [resolveGroups] at h
  | cons group rest ih =>
    intro bs es e hdef h
    have hrest : ∀ g ∈ rest, exchangeDefined consumers g.Exchange :=
      fun g hg => hdef g (List.mem_cons_of_mem _ hg)
    have lift : (∃ g ∈ rest, ∃ rule ∈ g.Bindings, ruleMatches ext dt dn rule = true ∧
        (∀ s, rule.Routing ≠ Any.str s) ∧ getBindingHeaders ext rule = Except.error e) →
        ∃ g ∈ group :: rest, ∃ rule ∈ g.Bindings, ruleMatches ext dt dn rule = true ∧
          (∀ s, rule.Routing ≠ Any.str s) ∧ getBindingHeaders ext rule = Except.error e := by
      rintro ⟨g, hin, hr⟩
      exact ⟨g, List.mem_cons_of_mem _ hin, hr⟩
    cases hf : findExchange consumers group.Exchange with
    | none =>
      exact absurd (hdef group (List.mem_cons_self _ _)) (findExchange_eq_none.1 hf)
    | some exchange =>
      rw [resolveGroups_defined ext consumers dt dn group rest bs es exchange hf] at h
      cases hr : resolveRules ext dt dn exchange group.Bindings bs false with
      | error e' =>
        simp only [hr, Option.some.injEq] at h
        subst h
        obtain ⟨rule, hin, hrule⟩ := resolveRules_error_origin ext dt dn exchange _ _ _ _ hr
        exact ⟨group, List.mem_cons_self _ _, rule, hin, hrule⟩
      | ok p =>
        obtain ⟨bs', found⟩ := p
        simp only [hr] at h
        cases found
        · exact lift (ih bs' es e hrest (by simpa using h))
        · exact lift (ih bs' _ e hrest (by simpa using h))

theorem resolveGroups_no_match (ext : External) (consumers : List ExchangeResource)
    (dt dn : String) :
    ∀ (groups : List ExchangeBindingsSchema) (bs : List Binding) (es : List ExchangeOptions),
      (∀ group ∈ groups, exchangeDefined consumers group.Exchange) →
      (∀ group ∈ groups, ∀ rule ∈ group.Bindings, ruleMatches ext dt dn rule = false) →
      resolveGroups ext consumers dt dn groups bs es
        = { bindings := some bs, exchanges := some es, err := none } := by
  intro groups
  induction groups with
  | nil => intro bs es _ _; rfl
  | cons group rest ih =>
    intro bs es hdef hno
    cases hf : findExchange consumers group.Exchange with
    | none =>
      exact absurd (hdef group (List.mem_cons_self _ _)) (findExchange_eq_none.1 hf)
    | some exchange =>
      rw [resolveGroups_defined ext consumers dt dn group rest bs es exchange hf,
        resolveRules_no_match ext dt dn exchange group.Bindings bs false
          (hno group (List.mem_cons_self _ _))]
      simp only [Bool.false_eq_true, if_false]
      exact ih bs es (fun g hg => hdef g (List.mem_cons_of_mem _ hg))
        (fun g hg => hno g (List.mem_cons_of_mem _ hg))

theorem forall₂_exists_right {α β : Type} {R : α → β → Prop} :
    ∀ {l₁ : List α} {l₂ : List β}, List.Forall₂ R l₁ l₂ → ∀ a ∈ l₁, ∃ b ∈ l₂, R a b := by
  intro l₁ l₂ h
  induction h with
  | nil => intro a ha; cases ha
  | cons hab _ ih =>
    intro a ha
    rcases List.mem_cons.1 ha with heq | hin
    · subst heq
      exact ⟨_, List.mem_cons_self _ _, hab⟩
    · obtain ⟨b, hb, hr⟩ := ih a hin
      exact ⟨b, List.mem_cons_of_mem _ hb, hr⟩

theorem forall₂_exists_left {α β : Type} {R : α → β → Prop} :
    ∀ {l₁ : List α} {l₂ : List β}, List.Forall₂ R l₁ l₂ → ∀ b ∈ l₂, ∃ a ∈ l₁, R a b := by
  intro l₁ l₂ h
  induction h with
  | nil => intro b hb; cases hb
  | cons hab _ ih =>
    intro b hb
    rcases List.mem_cons.1 hb with heq | hin
    · subst heq
      exact ⟨_, List.mem_cons_self _ _, hab⟩
    · obtain ⟨a, ha, hr⟩ := ih b hin
      exact ⟨a, List.mem_cons_of_mem _ ha, hr⟩

theorem mem_matchingPairs {ext : External} {dt dn : String}
    {groups : List ExchangeBindingsSchema} {p : ExchangeBindingsSchema × ExchangeBindingSchema} :
    p ∈ matchingPairs ext dt dn groups
      ↔ p.1 ∈ groups ∧ p.2 ∈ p.1.Bindings ∧ ruleMatches ext dt dn p.2 = true := by
  obtain ⟨g, r⟩ := p
  simp only [matchingPairs, matchingRules, List.mem_flatMap, List.mem_map, List.mem_filter,
    Prod.mk.injEq]
  constructor
  · rintro ⟨g', hg', r', ⟨hr', hm⟩, rfl, rfl⟩
    exact ⟨hg', hr', hm⟩
  · rintro ⟨hg, hr, hm⟩
    exact ⟨g, hg, r, ⟨hr, hm⟩, rfl, rfl⟩

theorem mem_matchingGroups {ext : External} {dt dn : String}
    {groups : List ExchangeBindingsSchema} {group : ExchangeBindingsSchema} :
    group ∈ matchingGroups ext dt dn groups
      ↔ group ∈ groups ∧ ∃ rule ∈ group.Bindings, ruleMatches ext dt dn rule = true := by
  simp only [matchingGroups, matchingRules, List.mem_filter, Bool.not_eq_true',
    List.isEmpty_eq_false_iff_exists_mem]

/-- Unfolding of a returned result into the run of the outer loop. -/
theorem resolveBindings_returned {ext : External} {blockSpec : BlockSpec} {dt dn : String}
    {r : ResolveResult} (h : resolveBindings ext blockSpec dt dn = Outcome.returned r) :
    ∃ schema, blockSpec.Bindings = some schema ∧
      r = resolveGroups ext blockSpec.Consumers dt dn schema.Exchanges [] [] := by
  unfold resolveBindings at h
  cases hb : blockSpec.Bindings with
  | none => simp [hb] at h
  | some schema =>
    simp only [hb, Outcome.returned.injEq] at h
    exact ⟨schema, rfl, h.symm⟩

theorem forall₂_map_eq {α β γ : Type} {f : α → γ} {g : β → γ} :
    ∀ {l₁ : List α} {l₂ : List β}, List.Forall₂ (fun a b => f a = g b) l₁ l₂ →
      l₁.map f = l₂.map g := by
  intro l₁ l₂ h
  induction h with
  | nil => rfl
  | cons hab _ ih => simp [hab, ih]

theorem getBindingHeaders_error_of_undecodable {ext : External} {rule : ExchangeBindingSchema}
    (hs : ∀ s, rule.Routing ≠ Any.str s)
    (hd : ∀ raw decoded, rule.Routing = Any.object raw → ext.Decode raw ≠ Except.ok decoded) :
    ∃ e, getBindingHeaders ext rule = Except.error e := by
  unfold getBindingHeaders
  cases hR : rule.Routing with
  | object raw =>
    cases hdec : ext.Decode raw with
    | error e => exact ⟨"error decoding headers binding: " ++ e, by simp only [hdec]⟩
    | ok decoded => exact absurd hdec (hd raw decoded hR)
  | str s => exact absurd hR (hs s)
  | _ => exact ⟨_, rfl⟩

theorem filter_any_eq_matchingGroups (ext : External) (dt dn : String)
    (groups : List ExchangeBindingsSchema) :
    groups.filter (fun group => group.Bindings.any (ruleMatches ext dt dn))
      = matchingGroups ext dt dn groups := by
  unfold matchingGroups matchingRules
  congr 1
  funext group
  induction group.Bindings with
  | nil => rfl
  | cons rule rest ih =>
    cases hm : ruleMatches ext dt dn rule <;> simp [List.filter_cons, hm, ih]

/-! ## The resolver (`resolveBindings`) -/

/-- C1: if a binding group names an exchange that is the name of no consumer
exchange definition, `resolveBindings` returns an error with `nil` bindings
and `nil` exchanges, whatever the rules of that group are and whatever the
earlier groups produced. -/
theorem resolveBindings_undefined_exchange (ext : External) (blockSpec : BlockSpec)
    (destinationType destinationName : String) (schema : BindingsSchema)
    (group : ExchangeBindingsSchema) (hb : blockSpec.Bindings = some schema)
    (hg : group ∈ schema.Exchanges)
    (hu : ¬ exchangeDefined blockSpec.Consumers group.Exchange) :
    ∃ e, resolveBindings ext blockSpec destinationType destinationName
      = Outcome.returned { bindings := none, exchanges := none, err := some e } := by
  unfold resolveBindings
  simp only [hb]
  rcases resolveGroups_shape ext blockSpec.Consumers destinationType destinationName
      schema.Exchanges [] [] with ⟨B, E, hok⟩ | ⟨e, herr⟩
  · obtain ⟨_, _, _, _, _, hdef⟩ := resolveGroups_ok ext blockSpec.Consumers destinationType
      destinationName schema.Exchanges [] [] (by rw [hok])
    exact absurd (hdef group hg) hu
  · exact ⟨e, by rw [herr]⟩

/-- Witness of C1: in `danglingSpec` the first group yields a binding for queue
`order-events`, the second group has no rules and names the undefined
exchange `missing`; the call returns an error and nothing else. -/
theorem resolveBindings_undefined_exchange_witness :
    ∃ e, resolveBindings library danglingSpec "queue" "order-events"
      = Outcome.returned { bindings := none, exchanges := none, err := some e } :=
  resolveBindings_undefined_exchange library danglingSpec "queue" "order-events"
    { Exchanges := [{ Exchange := "orders", Bindings := [orderCreatedRule] },
                    { Exchange := "missing", Bindings := [] }] }
    { Exchange := "missing", Bindings := [] } rfl
    (List.mem_cons_of_mem _ (List.mem_singleton.2 rfl))
    (by simp [exchangeDefined, danglingSpec, ordersExchange])

/-- Counterexample to C2: no rule of `danglingSpec` is for queue `nonexistent`,
yet the call returns the error of the undefined exchange `missing`, with `nil`
lists; and on a topology without a bindings section the call panics. -/
theorem resolveBindings_no_match_counterexample :
    (∀ schema, danglingSpec.Bindings = some schema → ∀ group ∈ schema.Exchanges,
        ∀ rule ∈ group.Bindings, ruleMatches library "queue" "nonexistent" rule = false) ∧
      resolveBindings library danglingSpec "queue" "nonexistent"
        = Outcome.returned
            { bindings := none, exchanges := none, err := some "exchange not found for binding" } ∧
      resolveBindings library unboundSpec "queue" "nonexistent" = Outcome.panicked := by
  refine ⟨?_, rfl, rfl⟩
  intro schema hs
  simp only [danglingSpec, Option.some.injEq] at hs
  subst hs
  intro group hg rule hr
  simp only [List.mem_cons, List.mem_singleton, List.not_mem_nil, or_false] at hg
  rcases hg with rfl | rfl
  · simp only [List.mem_singleton] at hr
    subst hr
    decide
  · cases hr

/-- C2 (amended): on a topology with a bindings section in which every
binding group names a defined consumer exchange, if no rule of any group is
for the destination, `resolveBindings` returns an empty bindings list, an
empty exchanges list and no error. -/
theorem resolveBindings_no_match (ext : External) (blockSpec : BlockSpec)
    (destinationType destinationName : String) (schema : BindingsSchema)
    (hb : blockSpec.Bindings = some schema)
    (hdef : ∀ group ∈ schema.Exchanges, exchangeDefined blockSpec.Consumers group.Exchange)
    (hno : ∀ group ∈ schema.Exchanges, ∀ rule ∈ group.Bindings,
      ruleMatches ext destinationType destinationName rule = false) :
    resolveBindings ext blockSpec destinationType destinationName
      = Outcome.returned { bindings := some [], exchanges := some [], err := none } := by
  unfold resolveBindings
  simp only [hb]
  rw [resolveGroups_no_match ext blockSpec.Consumers destinationType destinationName
    schema.Exchanges [] [] hdef hno]

/-- Witness of C2 (amended): the scenario resolved for queue `nonexistent`. -/
theorem resolveBindings_no_match_witness :
    resolveBindings library scenarioSpec "queue" "nonexistent"
      = Outcome.returned { bindings := some [], exchanges := some [], err := none } :=
  resolveBindings_no_match library scenarioSpec "queue" "nonexistent"
    { Exchanges := [{ Exchange := "orders", Bindings := [orderCreatedRule] }] } rfl
    (by
      intro group hg
      simp only [List.mem_singleton] at hg
      subst hg
      exact ⟨ordersExchange, by simp [scenarioSpec], rfl⟩)
    (by
      intro group hg rule hr
      simp only [List.mem_singleton] at hg
      subst hg
      simp only [List.mem_singleton] at hr
      subst hr
      decide)

/-- C3: when `resolveBindings` succeeds, the bindings it returns are, in group
order and then rule order, one binding per rule that is for the destination;
that binding carries the requested name and type, the exchange name of the
rule's group and `Declare = true`, and for a string routing value it carries
that string as routing key and no args. -/
theorem resolveBindings_bindings (ext : External) (blockSpec : BlockSpec)
    (destinationType destinationName : String) (r : ResolveResult)
    (h : resolveBindings ext blockSpec destinationType destinationName = Outcome.returned r)
    (hok : r.err = none) :
    ∃ schema bindings, blockSpec.Bindings = some schema ∧ r.bindings = some bindings ∧
      List.Forall₂
        (fun (p : ExchangeBindingsSchema × ExchangeBindingSchema) (b : Binding) =>
          b.DestinationName = destinationName ∧ b.DestinationType = destinationType ∧
          b.ExchangeName = p.1.Exchange ∧ b.Declare = true ∧
          ∀ s, p.2.Routing = Any.str s → b.RoutingKey = s ∧ b.Args = none)
        (matchingPairs ext destinationType destinationName schema.Exchanges) bindings := by
  obtain ⟨schema, hb, hr⟩ := resolveBindings_returned h
  subst hr
  obtain ⟨newB, newE, hres, hB, _, _⟩ := resolveGroups_ok ext blockSpec.Consumers
    destinationType destinationName schema.Exchanges [] [] hok
  refine ⟨schema, newB, hb, by rw [hres]; rfl, ?_⟩
  refine List.Forall₂.imp ?_ hB
  intro p b hE
  exact ⟨hE.1, hE.2.1, hE.2.2.1, hE.2.2.2.1, hE.2.2.2.2.1⟩

/-- Witness of C3: the scenario resolved for queue `order-events` gives exactly
the one binding with routing key `order.created`. -/
theorem resolveBindings_bindings_witness :
    (resolveBindings library scenarioSpec "queue" "order-events"
        = Outcome.returned scenarioResult ∧ scenarioResult.err = none) ∧
    ∃ schema bindings, scenarioSpec.Bindings = some schema ∧
      scenarioResult.bindings = some bindings ∧
      List.Forall₂
        (fun (p : ExchangeBindingsSchema × ExchangeBindingSchema) (b : Binding) =>
          b.DestinationName = "order-events" ∧ b.DestinationType = "queue" ∧
          b.ExchangeName = p.1.Exchange ∧ b.Declare = true ∧
          ∀ s, p.2.Routing = Any.str s → b.RoutingKey = s ∧ b.Args = none)
        (matchingPairs library "queue" "order-events" schema.Exchanges) bindings :=
  ⟨⟨rfl, rfl⟩,
    resolveBindings_bindings library scenarioSpec "queue" "order-events" scenarioResult rfl rfl⟩

/-- C4: for a rule whose routing value is a map that decodes into
`{matchAll, headers}`, `getBindingHeaders` yields a table whose keys are the
keys of `headers` plus `x-match`; every other key keeps its value of `headers`;
`x-match` is `all` exactly when `matchAll` is true and `any` exactly when it is
false, whatever `headers` holds under `x-match`. The header binding returned by
a successful `resolveBindings` for such a matching rule carries that table as
its args. -/
theorem getBindingHeaders_args (ext : External) (rule : ExchangeBindingSchema)
    (raw : List (String × Any)) (decoded : HeaderBindings)
    (hr : rule.Routing = Any.object raw) (hd : ext.Decode raw = Except.ok decoded) :
    ∃ args, getBindingHeaders ext rule = Except.ok args ∧
      (∀ key, (args key).isSome = true ↔ ((decoded.Headers key).isSome = true ∨ key = "x-match")) ∧
      (∀ key, key ≠ "x-match" → args key = decoded.Headers key) ∧
      (args "x-match" = some "all" ↔ decoded.MatchAll = true) ∧
      (args "x-match" = some "any" ↔ decoded.MatchAll = false) ∧
      ∀ (blockSpec : BlockSpec) (destinationType destinationName : String) (r : ResolveResult)
        (schema : BindingsSchema) (group : ExchangeBindingsSchema),
        resolveBindings ext blockSpec destinationType destinationName = Outcome.returned r →
        r.err = none → blockSpec.Bindings = some schema → group ∈ schema.Exchanges →
        rule ∈ group.Bindings → ruleMatches ext destinationType destinationName rule = true →
        ∃ bindings b, r.bindings = some bindings ∧ b ∈ bindings ∧
          b.DestinationName = destinationName ∧ b.DestinationType = destinationType ∧
          b.ExchangeName = group.Exchange ∧ b.RoutingKey = "" ∧ b.Declare = true ∧
          b.Args = some args := by
  have hget : getBindingHeaders ext rule
      = Except.ok (Table.set (fun key => decoded.Headers key) "x-match"
          (if decoded.MatchAll then "all" else "any")) := by
    unfold getBindingHeaders
    simp only [hr, hd]
    cases decoded.MatchAll <;> rfl
  refine ⟨_, hget, ?_, ?_, ?_, ?_, ?_⟩
  · intro key
    by_cases hk : key = "x-match"
    · simp [Table.set, hk]
    · simp [Table.set, hk]
  · intro key hk
    simp [Table.set, hk]
  · cases decoded.MatchAll <;> simp [Table.set]
  · cases decoded.MatchAll <;> simp [Table.set]
  · intro blockSpec dt dn r schema group h hok hb hg hrule hm
    obtain ⟨schema', hb', hres⟩ := resolveBindings_returned h
    rw [hb] at hb'
    cases hb'
    subst hres
    obtain ⟨newB, newE, hres, hB, _, _⟩ := resolveGroups_ok ext blockSpec.Consumers
      dt dn schema.Exchanges [] [] hok
    have hp : (group, rule) ∈ matchingPairs ext dt dn schema.Exchanges :=
      mem_matchingPairs.2 ⟨hg, hrule, hm⟩
    obtain ⟨b, hbmem, hE⟩ := forall₂_exists_right hB _ hp
    have hns : ∀ s, rule.Routing ≠ Any.str s := by
      intro s hc
      rw [hr] at hc
      cases hc
    obtain ⟨hkey, headers, hh, hargs⟩ := hE.2.2.2.2.2 hns
    rw [hget] at hh
    cases hh
    exact ⟨newB, b, by rw [hres]; rfl, hbmem, hE.1, hE.2.1, hE.2.2.1, hkey, hE.2.2.2.1, hargs⟩

/-- Witness of C4: `{matchAll: true, headers: {region: eu}}` gives
`{region: eu, x-match: all}`; and with `matchAll: false` an `x-match: all`
supplied in the headers is replaced by `x-match: any`. -/
theorem getBindingHeaders_args_witness :
    (∃ args, getBindingHeaders library regionRule = Except.ok args ∧
      args "region" = some "eu" ∧ args "x-match" = some "all" ∧ args "routing" = none) ∧
    (∃ args, getBindingHeaders library overridingRule = Except.ok args ∧
      args "region" = some "eu" ∧ args "x-match" = some "any") := by
  obtain ⟨args, hget, _, hcopy, hall, _, _⟩ :=
    getBindingHeaders_args library regionRule
      [("matchAll", Any.bool true), ("headers", Any.object [("region", Any.str "eu")])]
      { MatchAll := true, Headers := fun key => [("region", "eu")].lookup key } rfl rfl
  obtain ⟨args2, hget2, _, hcopy2, _, hany2, _⟩ :=
    getBindingHeaders_args library overridingRule
      [("matchAll", Any.bool false),
       ("headers", Any.object [("x-match", Any.str "all"), ("region", Any.str "eu")])]
      { MatchAll := false
        Headers := fun key => [("x-match", "all"), ("region", "eu")].lookup key } rfl rfl
  refine ⟨⟨args, hget, ?_, hall.2 rfl, ?_⟩, ⟨args2, hget2, ?_, hany2.2 rfl⟩⟩
  · rw [hcopy "region" (by decide)]
    decide
  · rw [hcopy "routing" (by decide)]
    decide
  · rw [hcopy2 "region" (by decide)]
    decide

/-- Counterexample to C5: two binding groups of `repeatedGroupSpec` name the
exchange `orders` and each has a rule for queue `order-events`; the call
succeeds and returns the exchange `orders` twice. -/
theorem resolveBindings_exchanges_nodup_counterexample :
    ∃ r exchanges, resolveBindings library repeatedGroupSpec "queue" "order-events"
        = Outcome.returned r ∧ r.err = none ∧ r.exchanges = some exchanges ∧
      exchanges.map (fun e => e.Name) = ["orders", "orders"] ∧
      ¬ (exchanges.map (fun e => e.Name)).Nodup :=
  ⟨_, _, rfl, rfl, rfl, by decide, by decide⟩

/-- C5 (amended): when `resolveBindings` succeeds, the names of the returned
exchanges are, in order, the exchange names of the binding groups that have a
rule for the destination: each such group contributes its exchange once,
however many of its rules match, and the names are a sublist of the groups'
exchange names. So no exchange name occurs more than once in the returned
exchanges list exactly when no two binding groups that have a rule for the
destination name the same exchange; in particular when the binding groups
name pairwise distinct exchanges. -/
theorem resolveBindings_exchanges_nodup (ext : External) (blockSpec : BlockSpec)
    (destinationType destinationName : String) (r : ResolveResult) (schema : BindingsSchema)
    (h : resolveBindings ext blockSpec destinationType destinationName = Outcome.returned r)
    (hok : r.err = none) (hb : blockSpec.Bindings = some schema) :
    ∃ exchanges, r.exchanges = some exchanges ∧
      exchanges.map (fun e => e.Name)
        = (schema.Exchanges.filter (fun group =>
            group.Bindings.any (ruleMatches ext destinationType destinationName))).map
              (fun group => group.Exchange) ∧
      List.Sublist (exchanges.map (fun e => e.Name))
        (schema.Exchanges.map (fun group => group.Exchange)) ∧
      ((exchanges.map (fun e => e.Name)).Nodup ↔
        ((schema.Exchanges.filter (fun group =>
            group.Bindings.any (ruleMatches ext destinationType destinationName))).map
              (fun group => group.Exchange)).Nodup) ∧
      ((schema.Exchanges.map (fun group => group.Exchange)).Nodup →
        (exchanges.map (fun e => e.Name)).Nodup) := by
  obtain ⟨schema', hb', hres⟩ := resolveBindings_returned h
  rw [hb] at hb'
  cases hb'
  subst hres
  obtain ⟨newB, newE, hres, _, hE, _⟩ := resolveGroups_ok ext blockSpec.Consumers
    destinationType destinationName schema.Exchanges [] [] hok
  have hnames : newE.map (fun e => e.Name)
      = (schema.Exchanges.filter (fun group =>
          group.Bindings.any (ruleMatches ext destinationType destinationName))).map
            (fun group => group.Exchange) := by
    rw [filter_any_eq_matchingGroups]
    symm
    apply forall₂_map_eq
    refine List.Forall₂.imp ?_ hE
    rintro group e ⟨definition, hf, rfl⟩
    exact (findExchange_name hf).symm
  have hsub : List.Sublist (newE.map (fun e => e.Name))
      (schema.Exchanges.map (fun group => group.Exchange)) := by
    rw [hnames]
    exact List.Sublist.map _ (List.filter_sublist _)
  exact ⟨newE, by rw [hres]; rfl, hnames, hsub, by rw [hnames],
    fun hn => hn.sublist hsub⟩

/-- Witness of C5 (amended): in `mixedSpec` two rules of the group of `orders`
are for queue `order-events` and the exchange is returned once; in
`partlyRepeatedSpec` two groups name `orders`, one of them has a rule for the
queue, and the exchange is returned once. -/
theorem resolveBindings_exchanges_nodup_witness :
    (∃ r exchanges, resolveBindings library mixedSpec "queue" "order-events"
        = Outcome.returned r ∧ r.exchanges = some exchanges ∧
      exchanges.map (fun e => e.Name) = ["orders"] ∧
      (exchanges.map (fun e => e.Name)).Nodup) ∧
    (∃ r exchanges, resolveBindings library partlyRepeatedSpec "queue" "order-events"
        = Outcome.returned r ∧ r.exchanges = some exchanges ∧
      exchanges.map (fun e => e.Name) = ["orders"] ∧
      (exchanges.map (fun e => e.Name)).Nodup) := by
  obtain ⟨exchanges, he, hnames, _, hiff, _⟩ :=
    resolveBindings_exchanges_nodup library mixedSpec "queue" "order-events" _
      { Exchanges :=
        [{ Exchange := "orders",
           Bindings := [orderCreatedRule,
                        { Name := "replies", Type_ := "queue", Routing := Any.str "reply" },
                        regionRule] },
         { Exchange := "audit",
           Bindings := [{ Name := "order-events", Type_ := "exchange",
                          Routing := Any.str "x" }] }] }
      rfl rfl rfl
  obtain ⟨exchanges2, he2, hnames2, _, hiff2, _⟩ :=
    resolveBindings_exchanges_nodup library partlyRepeatedSpec "queue" "order-events" _
      { Exchanges :=
        [{ Exchange := "orders", Bindings := [orderCreatedRule] },
         { Exchange := "orders",
           Bindings := [{ Name := "replies", Type_ := "queue", Routing := Any.str "reply" }] }] }
      rfl rfl rfl
  refine ⟨⟨_, exchanges, rfl, he, ?_, hiff.2 (by decide)⟩,
    ⟨_, exchanges2, rfl, he2, ?_, hiff2.2 (by decide)⟩⟩
  · rw [hnames]
    decide
  · rw [hnames2]
    decide

/-- C6: when `resolveBindings` succeeds, the exchanges it returns are, in group
order, one declaration per binding group that has a rule for the destination;
the declaration is `asExchange` of the first consumer exchange definition
named as the group's exchange, so it carries that definition's name, durable
flag, auto-delete flag and kind, and `Declare = true`. Hence a name is the name
of a returned exchange exactly when it is the exchange name of a returned
binding. -/
theorem resolveBindings_exchanges (ext : External) (blockSpec : BlockSpec)
    (destinationType destinationName : String) (r : ResolveResult)
    (h : resolveBindings ext blockSpec destinationType destinationName = Outcome.returned r)
    (hok : r.err = none) :
    ∃ schema exchanges bindings, blockSpec.Bindings = some schema ∧
      r.exchanges = some exchanges ∧ r.bindings = some bindings ∧
      List.Forall₂
        (fun (group : ExchangeBindingsSchema) (e : ExchangeOptions) =>
          ∃ definition,
            blockSpec.Consumers.find? (fun d => decide (d.Metadata.Name = group.Exchange))
              = some definition ∧
            e = asExchange definition ∧ e.Name = definition.Metadata.Name ∧
            e.Name = group.Exchange ∧ e.Durable = definition.Spec.Durable ∧
            e.AutoDelete = definition.Spec.AutoDelete ∧
            e.Kind = definition.Spec.ExchangeType ∧ e.Declare = true)
        (schema.Exchanges.filter (fun group =>
          group.Bindings.any (ruleMatches ext destinationType destinationName)))
        exchanges ∧
      ∀ name, (∃ e ∈ exchanges, e.Name = name) ↔ (∃ b ∈ bindings, b.ExchangeName = name) := by
  obtain ⟨schema, hb, hr⟩ := resolveBindings_returned h
  subst hr
  obtain ⟨newB, newE, hres, hB, hE, _⟩ := resolveGroups_ok ext blockSpec.Consumers
    destinationType destinationName schema.Exchanges [] [] hok
  have hfilter : schema.Exchanges.filter (fun group =>
      group.Bindings.any (ruleMatches ext destinationType destinationName))
      = matchingGroups ext destinationType destinationName schema.Exchanges := by
    unfold matchingGroups matchingRules
    congr 1
    funext group
    induction group.Bindings with
    | nil => rfl
    | cons rule rest ih =>
      cases hm : ruleMatches ext destinationType destinationName rule <;>
        simp [List.filter_cons, hm, ih]
  refine ⟨schema, newE, newB, hb, by rw [hres]; rfl, by rw [hres]; rfl, ?_, ?_⟩
  · rw [hfilter]
    refine List.Forall₂.imp ?_ hE
    rintro group e ⟨definition, hf, rfl⟩
    refine ⟨definition, ?_, rfl, rfl, findExchange_name hf, rfl, rfl, rfl, rfl⟩
    rw [← findExchange_eq_find]
    exact hf
  · intro name
    constructor
    · rintro ⟨e, he, rfl⟩
      obtain ⟨group, hg, definition, hf, rfl⟩ := forall₂_exists_left hE e he
      obtain ⟨hgm, rule, hrule, hm⟩ := mem_matchingGroups.1 hg
      obtain ⟨b, hbm, hEm⟩ := forall₂_exists_right hB (group, rule)
        (mem_matchingPairs.2 ⟨hgm, hrule, hm⟩)
      exact ⟨b, hbm, by rw [hEm.2.2.1]; exact (findExchange_name hf).symm⟩
    · rintro ⟨b, hbm, rfl⟩
      obtain ⟨p, hp, hEm⟩ := forall₂_exists_left hB b hbm
      obtain ⟨hgm, hrule, hm⟩ := mem_matchingPairs.1 hp
      obtain ⟨e, he, definition, hf, rfl⟩ := forall₂_exists_right hE p.1
        (mem_matchingGroups.2 ⟨hgm, p.2, hrule, hm⟩)
      exact ⟨_, he, by rw [hEm.2.2.1]; exact findExchange_name hf⟩

/-- Witness of C6: `mixedSpec` resolved for queue `order-events` returns the one
declaration of `orders`; the group of `audit` has no rule for the queue. -/
theorem resolveBindings_exchanges_witness :
    ∃ r, resolveBindings library mixedSpec "queue" "order-events" = Outcome.returned r ∧
      r.err = none ∧
      r.exchanges = some [{ Name := "orders", Durable := false, AutoDelete := false,
                            Kind := "topic", Declare := true }] ∧
      ∃ bindings, r.bindings = some bindings ∧
        ∀ name, name = "orders" ↔ ∃ b ∈ bindings, b.ExchangeName = name := by
  obtain ⟨schema, exchanges, bindings, _, he, hbs, _, hiff⟩ :=
    resolveBindings_exchanges library mixedSpec "queue" "order-events" _ rfl rfl
  refine ⟨_, rfl, rfl, rfl, bindings, hbs, ?_⟩
  cases he
  intro name
  rw [← hiff name]
  simp [asExchange, ordersExchange, eq_comm]

/-! ## The declaration builders (`asExchange`, `asQueue`) -/

/-- C7: `asQueue` is total; the declaration carries the durable, auto-delete and
exclusive flags of the definition and `Declare = true`; its requested name is
the empty string when the definition is exclusive and the metadata name when
it is not. -/
theorem asQueue_declaration (queue : QueueResource) :
    (asQueue queue).Durable = queue.Spec.Durable ∧
    (asQueue queue).AutoDelete = queue.Spec.AutoDelete ∧
    (asQueue queue).Exclusive = queue.Spec.Exclusive ∧
    (asQueue queue).Declare = true ∧
    (asQueue queue).Name = (if queue.Spec.Exclusive = true then "" else queue.Metadata.Name) ∧
    (queue.Spec.Exclusive = true → (asQueue queue).Name = "") ∧
    (queue.Spec.Exclusive = false → (asQueue queue).Name = queue.Metadata.Name) := by
  refine ⟨rfl, rfl, rfl, rfl, rfl, ?_, ?_⟩
  · intro hx
    simp [asQueue, hx]
  · intro hx
    simp [asQueue, hx]

/-- Witness of C7: the exclusive queue `replies` is requested with the empty
name, the queue `order-events` with its own name. -/
theorem asQueue_declaration_witness :
    asQueue repliesQueue
      = { Name := "", Durable := false, AutoDelete := true, Exclusive := true, Declare := true } ∧
    (asQueue orderEventsQueue).Name = "order-events" :=
  ⟨by decide,
    ((asQueue_declaration orderEventsQueue).2.2.2.2.2.2 rfl).trans (by decide)⟩

/-! ## Errors of the resolver -/

/-- C8: on a topology in which every binding group names a defined exchange,
if some rule for the destination has a routing value that is neither a string
nor a map that decodes into `{matchAll, headers}`, `resolveBindings` returns
an error with `nil` bindings and `nil` exchanges, and that error is the one
`getBindingHeaders` gives for such a rule. In any case a result with an error
has `nil` bindings and `nil` exchanges. -/
theorem resolveBindings_undecodable (ext : External) (blockSpec : BlockSpec)
    (destinationType destinationName : String) (schema : BindingsSchema)
    (group : ExchangeBindingsSchema) (rule : ExchangeBindingSchema)
    (hb : blockSpec.Bindings = some schema)
    (hdef : ∀ g ∈ schema.Exchanges, exchangeDefined blockSpec.Consumers g.Exchange)
    (hg : group ∈ schema.Exchanges) (hrule : rule ∈ group.Bindings)
    (hm : ruleMatches ext destinationType destinationName rule = true)
    (hs : ∀ s, rule.Routing ≠ Any.str s)
    (hd : ∀ raw decoded, rule.Routing = Any.object raw → ext.Decode raw ≠ Except.ok decoded) :
    (∃ e, resolveBindings ext blockSpec destinationType destinationName
        = Outcome.returned { bindings := none, exchanges := none, err := some e } ∧
      ∃ g ∈ schema.Exchanges, ∃ bad ∈ g.Bindings,
        ruleMatches ext destinationType destinationName bad = true ∧
        getBindingHeaders ext bad = Except.error e) ∧
    ∀ (anySpec : BlockSpec) (anyType anyName : String) (r : ResolveResult),
      resolveBindings ext anySpec anyType anyName = Outcome.returned r → r.err ≠ none →
      r.bindings = none ∧ r.exchanges = none := by
  constructor
  · unfold resolveBindings
    simp only [hb]
    rcases resolveGroups_shape ext blockSpec.Consumers destinationType destinationName
        schema.Exchanges [] [] with ⟨B, E, hok⟩ | ⟨e, herr⟩
    · obtain ⟨newB, _, _, hB, _, _⟩ := resolveGroups_ok ext blockSpec.Consumers destinationType
        destinationName schema.Exchanges [] [] (by rw [hok])
      obtain ⟨b, _, hE⟩ := forall₂_exists_right hB (group, rule)
        (mem_matchingPairs.2 ⟨hg, hrule, hm⟩)
      obtain ⟨_, headers, hh, _⟩ := hE.2.2.2.2.2 hs
      obtain ⟨e, he⟩ := getBindingHeaders_error_of_undecodable hs hd
      rw [he] at hh
      cases hh
    · obtain ⟨g, hgm, bad, hbad, hbm, _, hbe⟩ := resolveGroups_error_origin ext
        blockSpec.Consumers destinationType destinationName schema.Exchanges [] [] e hdef
        (by rw [herr])
      exact ⟨e, by rw [herr], g, hgm, bad, hbad, hbm, hbe⟩
  · intro anySpec anyType anyName r h hne
    obtain ⟨schema', _, hr⟩ := resolveBindings_returned h
    subst hr
    rcases resolveGroups_shape ext anySpec.Consumers anyType anyName
        schema'.Exchanges [] [] with ⟨B, E, hok⟩ | ⟨e, herr⟩
    · rw [hok] at hne
      exact absurd rfl hne
    · rw [herr]
      exact ⟨rfl, rfl⟩

/-- Witness of C8: in `brokenSpec` the group of `orders` yields a binding for
queue `order-events`, then the rule of the group of `audit` has no routing
value; the call returns the error `invalid headers binding` and nothing else. -/
theorem resolveBindings_undecodable_witness :
    resolveBindings library brokenSpec "queue" "order-events"
      = Outcome.returned
          { bindings := none, exchanges := none, err := some "invalid headers binding" } ∧
    ∃ e, resolveBindings library brokenSpec "queue" "order-events"
        = Outcome.returned { bindings := none, exchanges := none, err := some e } ∧
      ∃ g ∈ [({ Exchange := "orders", Bindings := [orderCreatedRule] } : ExchangeBindingsSchema),
             { Exchange := "audit", Bindings := [unroutedRule] }],
        ∃ bad ∈ g.Bindings, ruleMatches library "queue" "order-events" bad = true ∧
          getBindingHeaders library bad = Except.error e :=
  ⟨rfl,
    (resolveBindings_undecodable library brokenSpec "queue" "order-events"
      { Exchanges := [{ Exchange := "orders", Bindings := [orderCreatedRule] },
                      { Exchange := "audit", Bindings := [unroutedRule] }] }
      { Exchange := "audit", Bindings := [unroutedRule] } unroutedRule rfl
      (by
        intro g hgm
        simp only [List.mem_cons, List.mem_singleton, List.not_mem_nil, or_false] at hgm
        rcases hgm with rfl | rfl
        · exact ⟨ordersExchange, by simp [brokenSpec], rfl⟩
        · exact ⟨auditExchange, by simp [brokenSpec], rfl⟩)
      (List.mem_cons_of_mem _ (List.mem_singleton.2 rfl))
      (List.mem_singleton.2 rfl)
      (by decide)
      (by intro s hc; cases hc)
      (by intro raw decoded hc; cases hc)).1⟩

/-! ## The message handler (`createHandler`) -/

/-- C9: the handler built by `createHandler` returns `NackDiscard`, leaving the
world as it was (the callback is not run), when the content type is not
`application/json` or the body does not decode; such a message never gets
`NackRequeue`. Otherwise the callback is run once, on the decoded payload and
the incoming world, and the handler returns `NackRequeue` when the callback
returns an error and the callback's action when it does not. -/
theorem createHandler_action {T World : Type} (Unmarshal : List UInt8 → Except String T)
    (callback : MessageHandler T World) (message : Delivery) (world : World) :
    ((message.ContentType ≠ "application/json" ∨
        ∃ e, Unmarshal message.Body = Except.error e) →
      createHandler Unmarshal callback message world = (NackDiscard, world) ∧
      (createHandler Unmarshal callback message world).1 ≠ NackRequeue) ∧
    (∀ payload, message.ContentType = "application/json" →
      Unmarshal message.Body = Except.ok payload →
      (createHandler Unmarshal callback message world).2
        = (callback payload message world).2 ∧
      ((callback payload message world).1.2 ≠ none →
        (createHandler Unmarshal callback message world).1 = NackRequeue) ∧
      ((callback payload message world).1.2 = none →
        (createHandler Unmarshal callback message world).1
          = (callback payload message world).1.1)) := by
  constructor
  · intro h
    have hres : createHandler Unmarshal callback message world = (NackDiscard, world) := by
      unfold createHandler
      by_cases hc : message.ContentType = "application/json"
      · rcases h with h | ⟨e, he⟩
        · exact absurd hc h
        · simp [hc, he]
      · simp [hc]
    rw [hres]
    refine ⟨rfl, ?_⟩
    show NackDiscard ≠ NackRequeue
    decide
  · intro payload hc hp
    unfold createHandler
    simp only [hc, bne_self_eq_false, Bool.false_eq_true, if_false, hp]
    rcases hcb : callback payload message world with ⟨⟨action, err⟩, world'⟩
    cases err with
    | none => simp
    | some e => simp

/-- Witness of C9: a JSON delivery with body `{}` whose callback fails is
requeued after one invocation; a delivery of another content type, and JSON
deliveries whose body is empty or is the truncated `{`, are discarded without
any invocation. -/
theorem createHandler_action_witness :
    createHandler unmarshalUnit failingCallback
        { ContentType := "application/json", Body := [123, 125] } 0 = (NackRequeue, 1) ∧
    createHandler unmarshalUnit failingCallback
        { ContentType := "text/plain", Body := [123, 125] } 0 = (NackDiscard, 0) ∧
    createHandler unmarshalUnit failingCallback
        { ContentType := "application/json", Body := [] } 0 = (NackDiscard, 0) ∧
    createHandler unmarshalUnit failingCallback
        { ContentType := "application/json", Body := [123] } 0 = (NackDiscard, 0) := by
  have h1 := (createHandler_action unmarshalUnit failingCallback
    { ContentType := "application/json", Body := [123, 125] } 0).2 () rfl rfl
  have h2 := ((createHandler_action unmarshalUnit failingCallback
    { ContentType := "text/plain", Body := [123, 125] } 0).1 (Or.inl (by decide))).1
  have h3 := ((createHandler_action unmarshalUnit failingCallback
    { ContentType := "application/json", Body := [] } 0).1 (Or.inr ⟨_, rfl⟩)).1
  have h4 := ((createHandler_action unmarshalUnit failingCallback
    { ContentType := "application/json", Body := [123] } 0).1 (Or.inr ⟨_, rfl⟩)).1
  exact ⟨Prod.ext (h1.2.1 (by decide)) h1.1, h2, h3, h4⟩

/-! ## Resource selection (`CreateConsumer`, `CreatePublisherWithOptions`) -/

theorem publishExchanges_length {World RawSpec Conn RmqConsumer RmqPublisher : Type}
    (env : Collaborators World RawSpec Conn RmqConsumer RmqPublisher) (ext : External)
    (publishOptions : PublisherOptions) (blockSpec : BlockSpec) (conn : Conn) :
    ∀ (definitions : List ExchangeResource) (publishers : List RmqPublisher) (world : World)
      (publishers' : List RmqPublisher) (world' : World),
      publishExchanges env ext publishOptions blockSpec conn definitions publishers world
        = Outcome.returned (Except.ok publishers', world') →
      publishers'.length = publishers.length + definitions.length := by
  intro definitions
  induction definitions with
  | nil =>
    intro publishers world publishers' world' h
    simp only [publishExchanges, Outcome.returned.injEq, Prod.mk.injEq, Except.ok.injEq] at h
    simp [h.1]
  | cons definition rest ih =>
    intro publishers world publishers' world' h
    rw [publishExchanges] at h
    simp only at h
    split at h
    · cases h
    · split at h
      · simp at h
      · split at h
        · simp at h
        · have := ih _ _ _ _ h
          simp only [List.length_append, List.length_singleton, List.length_cons,
            List.length_nil] at this ⊢
          omega

theorem publishInstances_ok {World RawSpec Conn RmqConsumer RmqPublisher : Type}
    (env : Collaborators World RawSpec Conn RmqConsumer RmqPublisher) (ext : External)
    (resourceName : String) (publishOptions : PublisherOptions) :
    ∀ (instances : List (BlockInstanceDetails RawSpec)) (connections : List (String × Conn))
      (publishers : List RmqPublisher) (world : World)
      (publishers' : List RmqPublisher) (world' : World),
      publishInstances env ext resourceName publishOptions instances connections publishers world
        = Outcome.returned (Except.ok publishers', world') →
      (∀ instance_ ∈ instances, ∃ blockSpec, toBlockSpec env instance_ = Except.ok blockSpec ∧
        1 ≤ (selectExchanges blockSpec.Consumers resourceName instance_.Connections []).length) ∧
      publishers'.length
        = publishers.length + (instances.map (selectedExchangeCount env resourceName)).sum := by
  intro instances
  induction instances with
  | nil =>
    intro connections publishers world publishers' world' h
    simp only [publishInstances, Outcome.returned.injEq, Prod.mk.injEq, Except.ok.injEq] at h
    simp [h.1]
  | cons instance_ rest ih =>
    intro connections publishers world publishers' world' h
    rw [publishInstances] at h
    cases hspec : toBlockSpec env instance_ with
    | error e => simp [hspec] at h
    | ok blockSpec =>
      simp only [hspec] at h
      split at h
      · simp at h
      · cases hsel : selectExchanges blockSpec.Consumers resourceName instance_.Connections [] with
        | nil => simp [hsel] at h
        | cons first others =>
          simp only [hsel] at h
          split at h
          · cases h
          · simp at h
          · rename_i hpub
            have hlen := publishExchanges_length env ext publishOptions blockSpec _ _ _ _ _ _ hpub
            obtain ⟨hall, hsum⟩ := ih _ _ _ _ _ h
            constructor
            · intro i hi
              rcases List.mem_cons.1 hi with heq | hin
              · subst heq
                exact ⟨blockSpec, hspec, by simp [hsel]⟩
              · exact hall i hin
            · have hcount : selectedExchangeCount env resourceName instance_
                  = (first :: others).length := by
                simp only [selectedExchangeCount, hspec, hsel]
              simp only [List.map_cons, List.sum_cons, hcount]
              omega

theorem CreateConsumer_selected {T World RawSpec Conn RmqConsumer RmqPublisher : Type}
    (env : Collaborators World RawSpec Conn RmqConsumer RmqPublisher) (ext : External)
    (Unmarshal : List UInt8 → Except String T) (resourceName : String)
    (callback : MessageHandler T World) (world : World) (consumer : RmqConsumer)
    (world' : World)
    (h : CreateConsumer env ext Unmarshal resourceName callback world
      = Outcome.returned (Except.ok consumer, world')) :
    ∃ instance_ w1 blockSpec,
      env.GetInstanceForConsumer resourceName world = (Except.ok instance_, w1) ∧
      toBlockSpec env instance_ = Except.ok blockSpec ∧
      (selectQueues blockSpec.Providers resourceName instance_.Connections []).length = 1 := by
  unfold CreateConsumer at h
  split at h
  · simp at h
  · rename_i instance_ w1 hget
    split at h
    · simp at h
    · rename_i blockSpec hspec
      split at h
      · simp at h
      · split at h
        · simp at h
        · simp at h
        · rename_i hsel
          exact ⟨instance_, w1, blockSpec, hget, hspec, by rw [hsel]; rfl⟩

theorem CreateConsumer_rejected {T World RawSpec Conn RmqConsumer RmqPublisher : Type}
    (env : Collaborators World RawSpec Conn RmqConsumer RmqPublisher) (ext : External)
    (Unmarshal : List UInt8 → Except String T) (resourceName : String)
    (callback : MessageHandler T World) (world : World)
    (instance_ : BlockInstanceDetails RawSpec) (w1 : World) (blockSpec : BlockSpec)
    (conn : Conn) (w2 : World)
    (hget : env.GetInstanceForConsumer resourceName world = (Except.ok instance_, w1))
    (hspec : toBlockSpec env instance_ = Except.ok blockSpec)
    (hconn : env.ConnectToInstance instance_.InstanceId w1 = (Except.ok conn, w2))
    (hlen : (selectQueues blockSpec.Providers resourceName instance_.Connections []).length ≠ 1) :
    ∃ e, CreateConsumer env ext Unmarshal resourceName callback world
      = Outcome.returned (Except.error e, w2) := by
  unfold CreateConsumer
  simp only [hget, hspec, hconn]
  cases hsel : selectQueues blockSpec.Providers resourceName instance_.Connections [] with
  | nil => exact ⟨_, rfl⟩
  | cons first others =>
    cases others with
    | nil =>
      rw [hsel] at hlen
      exact absurd rfl hlen
    | cons second more => exact ⟨_, rfl⟩

theorem CreatePublisherWithOptions_selected {World RawSpec Conn RmqConsumer RmqPublisher : Type}
    (env : Collaborators World RawSpec Conn RmqConsumer RmqPublisher) (ext : External)
    (resourceName : String) (publishOptions : PublisherOptions) (world : World)
    (publisher : Publisher RmqPublisher) (world' : World)
    (h : CreatePublisherWithOptions env ext resourceName publishOptions world
      = Outcome.returned (Except.ok publisher, world')) :
    ∃ instances w1,
      env.GetInstancesForProvider resourceName world = (Except.ok instances, w1) ∧
      instances ≠ [] ∧
      (∀ instance_ ∈ instances, ∃ blockSpec, toBlockSpec env instance_ = Except.ok blockSpec ∧
        1 ≤ (selectExchanges blockSpec.Consumers resourceName instance_.Connections []).length) ∧
      publisher.publishers.length
        = (instances.map (selectedExchangeCount env resourceName)).sum := by
  unfold CreatePublisherWithOptions at h
  split at h
  · simp at h
  · rename_i instances w1 hget
    split at h
    · simp at h
    · rename_i hne
      split at h
      · cases h
      · simp at h
      · rename_i publishers w2 hloop
        obtain ⟨hall, hsum⟩ := publishInstances_ok env ext resourceName publishOptions
          _ _ _ _ _ _ hloop
        simp only [Outcome.returned.injEq, Prod.mk.injEq, Except.ok.injEq] at h
        refine ⟨instances, w1, hget, ?_, hall, ?_⟩
        · intro hnil
          exact hne (by rw [hnil]; rfl)
        · rw [← h.1]
          simpa using hsum

theorem publishExchanges_succeeds {World RawSpec Conn RmqConsumer RmqPublisher : Type}
    (env : Collaborators World RawSpec Conn RmqConsumer RmqPublisher) (ext : External)
    (publishOptions : PublisherOptions) (blockSpec : BlockSpec) (conn : Conn)
    (hnew : ∀ c confirm name exchanges bindings w, ∃ p w',
      env.NewPublisher c confirm name exchanges bindings w = (Except.ok p, w')) :
    ∀ (definitions : List ExchangeResource),
      (∀ d ∈ definitions, ∃ r,
        resolveBindings ext blockSpec BindingTypeExchange (asExchange d).Name
          = Outcome.returned r ∧ r.err = none) →
      ∀ (publishers : List RmqPublisher) (world : World), ∃ publishers' world',
        publishExchanges env ext publishOptions blockSpec conn definitions publishers world
          = Outcome.returned (Except.ok publishers', world') := by
  intro definitions
  induction definitions with
  | nil =>
    intro _ publishers world
    exact ⟨publishers, world, rfl⟩
  | cons definition rest ih =>
    intro hres publishers world
    obtain ⟨r, hr, herr⟩ := hres definition (List.mem_cons_self _ _)
    obtain ⟨p, w', hp⟩ := hnew conn publishOptions.Confirm (asExchange definition).Name
      (dereferenceSlice (some (dereferenceSlice r.exchanges ++ [asExchange definition])))
      (dereferenceSlice r.bindings) world
    rw [publishExchanges]
    simp only [hr, herr, hp]
    exact ih (fun d hd => hres d (List.mem_cons_of_mem _ hd)) _ _

theorem publishInstances_succeeds {World RawSpec Conn RmqConsumer RmqPublisher : Type}
    (env : Collaborators World RawSpec Conn RmqConsumer RmqPublisher) (ext : External)
    (resourceName : String) (publishOptions : PublisherOptions)
    (hconn : ∀ instanceId w, ∃ c w',
      env.ConnectToInstance instanceId w = (Except.ok c, w'))
    (hnew : ∀ c confirm name exchanges bindings w, ∃ p w',
      env.NewPublisher c confirm name exchanges bindings w = (Except.ok p, w')) :
    ∀ (instances : List (BlockInstanceDetails RawSpec)),
      (∀ instance_ ∈ instances, ∃ blockSpec, toBlockSpec env instance_ = Except.ok blockSpec ∧
        1 ≤ (selectExchanges blockSpec.Consumers resourceName instance_.Connections []).length ∧
        ∀ d ∈ selectExchanges blockSpec.Consumers resourceName instance_.Connections [], ∃ r,
          resolveBindings ext blockSpec BindingTypeExchange (asExchange d).Name
            = Outcome.returned r ∧ r.err = none) →
      ∀ (connections : List (String × Conn)) (publishers : List RmqPublisher) (world : World),
        ∃ publishers' world',
          publishInstances env ext resourceName publishOptions instances connections publishers
            world = Outcome.returned (Except.ok publishers', world') := by
  intro instances
  induction instances with
  | nil =>
    intro _ connections publishers world
    exact ⟨publishers, world, rfl⟩
  | cons instance_ rest ih =>
    intro hall connections publishers world
    obtain ⟨blockSpec, hspec, hone, hres⟩ := hall instance_ (List.mem_cons_self _ _)
    have hrest := fun i hi => hall i (List.mem_cons_of_mem instance_ hi)
    rw [publishInstances]
    simp only [hspec]
    cases hsel : selectExchanges blockSpec.Consumers resourceName instance_.Connections [] with
    | nil =>
      rw [hsel] at hone
      simp at hone
    | cons first others =>
      rw [hsel] at hres
      cases hlook : connections.lookup instance_.InstanceId with
      | some c =>
        obtain ⟨ps1, w1, hpub⟩ := publishExchanges_succeeds env ext publishOptions blockSpec c
          hnew (first :: others) hres publishers world
        simp only [hpub]
        exact ih hrest _ _ _
      | none =>
        obtain ⟨c, w0, hc⟩ := hconn instance_.InstanceId world
        obtain ⟨ps1, w1, hpub⟩ := publishExchanges_succeeds env ext publishOptions blockSpec c
          hnew (first :: others) hres publishers w0
        simp only [hc, hpub]
        exact ih hrest _ _ _

theorem CreatePublisherWithOptions_accepts {World RawSpec Conn RmqConsumer RmqPublisher : Type}
    (env : Collaborators World RawSpec Conn RmqConsumer RmqPublisher) (ext : External)
    (resourceName : String) (publishOptions : PublisherOptions) (world : World)
    (instances : List (BlockInstanceDetails RawSpec)) (w1 : World)
    (hget : env.GetInstancesForProvider resourceName world = (Except.ok instances, w1))
    (hne : instances ≠ [])
    (hconn : ∀ instanceId w, ∃ c w',
      env.ConnectToInstance instanceId w = (Except.ok c, w'))
    (hnew : ∀ c confirm name exchanges bindings w, ∃ p w',
      env.NewPublisher c confirm name exchanges bindings w = (Except.ok p, w'))
    (hall : ∀ instance_ ∈ instances, ∃ blockSpec,
      toBlockSpec env instance_ = Except.ok blockSpec ∧
      1 ≤ (selectExchanges blockSpec.Consumers resourceName instance_.Connections []).length ∧
      ∀ d ∈ selectExchanges blockSpec.Consumers resourceName instance_.Connections [], ∃ r,
        resolveBindings ext blockSpec BindingTypeExchange (asExchange d).Name
          = Outcome.returned r ∧ r.err = none) :
    ∃ publisher world',
      CreatePublisherWithOptions env ext resourceName publishOptions world
        = Outcome.returned (Except.ok publisher, world') ∧
      publisher.publishers.length
        = (instances.map (selectedExchangeCount env resourceName)).sum := by
  obtain ⟨ps, w2, hloop⟩ := publishInstances_succeeds env ext resourceName publishOptions
    hconn hnew instances hall [] [] w1
  have hlen : instances.length ≠ 0 := fun h => hne (List.length_eq_zero.1 h)
  have hcall : CreatePublisherWithOptions env ext resourceName publishOptions world
      = Outcome.returned
          (Except.ok { appId := (env.GetInstanceId w2).1 ++ "_" ++ resourceName,
                       publishers := ps }, (env.GetInstanceId w2).2) := by
    unfold CreatePublisherWithOptions
    simp only [hget, hlen, if_false, hloop]
  refine ⟨_, _, hcall, ?_⟩
  have := (publishInstances_ok env ext resourceName publishOptions _ _ _ _ _ _ hloop).2
  simpa using this

/-- Counterexample to C10: the connections of `brokerInstance` select two
exchange definitions (`orders` and `audit`) for the provider `events`, and
`CreatePublisherWithOptions` succeeds, having created one publisher for each. -/
theorem CreatePublisherWithOptions_selection_counterexample :
    toBlockSpec brokerCollaborators brokerInstance = Except.ok mixedSpec ∧
    (selectExchanges mixedSpec.Consumers "events" brokerInstance.Connections []).map
        (fun definition => definition.Metadata.Name) = ["orders", "audit"] ∧
    CreatePublisherWithOptions brokerCollaborators library "events" { Confirm := false } 0
      = Outcome.returned
          (Except.ok { appId := "app_events", publishers := ["orders", "audit"] }, 2) :=
  ⟨rfl, by decide, rfl⟩

/-- C10 (amended): `CreateConsumer` succeeds only if the instance's connections
select exactly one provider-side queue definition for the resource name; when
they select none or more than one it returns an error and the world is the one
left by `ConnectToInstance` (no consumer is created). `CreatePublisherWithOptions`
succeeds only if, for every instance, the connections select at least one
consumer-side exchange definition; when some instance selects none it does not
succeed. When every instance selects one or more definitions, and decoding,
connecting, binding resolution and publisher construction do not fail, it
succeeds and holds one publisher per selected definition. -/
theorem provisioner_selection {T World RawSpec Conn RmqConsumer RmqPublisher : Type}
    (env : Collaborators World RawSpec Conn RmqConsumer RmqPublisher) (ext : External)
    (Unmarshal : List UInt8 → Except String T) (resourceName : String)
    (callback : MessageHandler T World) (publishOptions : PublisherOptions) (world : World) :
    (∀ consumer world',
      CreateConsumer env ext Unmarshal resourceName callback world
        = Outcome.returned (Except.ok consumer, world') →
      ∃ instance_ w1 blockSpec,
        env.GetInstanceForConsumer resourceName world = (Except.ok instance_, w1) ∧
        toBlockSpec env instance_ = Except.ok blockSpec ∧
        (selectQueues blockSpec.Providers resourceName instance_.Connections []).length = 1) ∧
    (∀ instance_ w1 blockSpec conn w2,
      env.GetInstanceForConsumer resourceName world = (Except.ok instance_, w1) →
      toBlockSpec env instance_ = Except.ok blockSpec →
      env.ConnectToInstance instance_.InstanceId w1 = (Except.ok conn, w2) →
      (selectQueues blockSpec.Providers resourceName instance_.Connections []).length ≠ 1 →
      ∃ e, CreateConsumer env ext Unmarshal resourceName callback world
        = Outcome.returned (Except.error e, w2)) ∧
    (∀ publisher world',
      CreatePublisherWithOptions env ext resourceName publishOptions world
        = Outcome.returned (Except.ok publisher, world') →
      ∃ instances w1,
        env.GetInstancesForProvider resourceName world = (Except.ok instances, w1) ∧
        instances ≠ [] ∧
        (∀ instance_ ∈ instances, ∃ blockSpec,
          toBlockSpec env instance_ = Except.ok blockSpec ∧
          1 ≤ (selectExchanges blockSpec.Consumers resourceName instance_.Connections []).length) ∧
        publisher.publishers.length
          = (instances.map (selectedExchangeCount env resourceName)).sum) ∧
    (∀ instances w1 instance_ blockSpec,
      env.GetInstancesForProvider resourceName world = (Except.ok instances, w1) →
      instance_ ∈ instances → toBlockSpec env instance_ = Except.ok blockSpec →
      selectExchanges blockSpec.Consumers resourceName instance_.Connections [] = [] →
      ∀ publisher world',
        CreatePublisherWithOptions env ext resourceName publishOptions world
          ≠ Outcome.returned (Except.ok publisher, world')) ∧
    (∀ instances w1,
      env.GetInstancesForProvider resourceName world = (Except.ok instances, w1) →
      instances ≠ [] →
      (∀ instanceId w, ∃ c w', env.ConnectToInstance instanceId w = (Except.ok c, w')) →
      (∀ c confirm name exchanges bindings w, ∃ p w',
        env.NewPublisher c confirm name exchanges bindings w = (Except.ok p, w')) →
      (∀ instance_ ∈ instances, ∃ blockSpec,
        toBlockSpec env instance_ = Except.ok blockSpec ∧
        1 ≤ (selectExchanges blockSpec.Consumers resourceName instance_.Connections []).length ∧
        ∀ d ∈ selectExchanges blockSpec.Consumers resourceName instance_.Connections [], ∃ r,
          resolveBindings ext blockSpec BindingTypeExchange (asExchange d).Name
            = Outcome.returned r ∧ r.err = none) →
      ∃ publisher world',
        CreatePublisherWithOptions env ext resourceName publishOptions world
          = Outcome.returned (Except.ok publisher, world') ∧
        publisher.publishers.length
          = (instances.map (selectedExchangeCount env resourceName)).sum) := by
  refine ⟨?_, ?_, ?_, ?_, ?_⟩
  · intro consumer world' h
    exact CreateConsumer_selected env ext Unmarshal resourceName callback world consumer world' h
  · intro instance_ w1 blockSpec conn w2 hget hspec hconn hlen
    exact CreateConsumer_rejected env ext Unmarshal resourceName callback world instance_ w1
      blockSpec conn w2 hget hspec hconn hlen
  · intro publisher world' h
    exact CreatePublisherWithOptions_selected env ext resourceName publishOptions world
      publisher world' h
  · intro instances w1 instance_ blockSpec hget hmem hspec hsel publisher world' h
    obtain ⟨instances', w1', hget', _, hall, _⟩ :=
      CreatePublisherWithOptions_selected env ext resourceName publishOptions world
        publisher world' h
    rw [hget] at hget'
    simp only [Prod.mk.injEq, Except.ok.injEq] at hget'
    obtain ⟨blockSpec', hspec', hone⟩ := hall instance_ (hget'.1 ▸ hmem)
    rw [hspec] at hspec'
    cases hspec'
    rw [hsel] at hone
    simp at hone
  · intro instances w1 hget hne hconn hnew hall
    exact CreatePublisherWithOptions_accepts env ext resourceName publishOptions world
      instances w1 hget hne hconn hnew hall

/-- Witness of C10 (amended): with `brokerInstance`, the consumer `worker` is
connected to two queues and the consumer `nobody` to none, and both calls fail
without creating a consumer; the consumer `mailer` is connected to one queue
and its consumer is created; the provider `events` is connected to two
exchanges and a publisher holding two transport publishers is created. -/
theorem provisioner_selection_witness :
    (∃ e, CreateConsumer brokerCollaborators library unmarshalUnit "worker" failingCallback 0
        = Outcome.returned (Except.error e, 0)) ∧
    (∃ e, CreateConsumer brokerCollaborators library unmarshalUnit "nobody" failingCallback 0
        = Outcome.returned (Except.error e, 0)) ∧
    CreateConsumer brokerCollaborators library unmarshalUnit "mailer" failingCallback 0
        = Outcome.returned (Except.ok "app_mailer", 1) ∧
    (selectQueues mixedSpec.Providers "mailer" brokerInstance.Connections []).length = 1 ∧
    (∃ publisher world',
      CreatePublisherWithOptions brokerCollaborators library "events" { Confirm := false } 0
        = Outcome.returned (Except.ok publisher, world') ∧
      publisher.publishers.length = 2 ∧ publisher.publishers = ["orders", "audit"] ∧
      world' = 2) := by
  refine ⟨?_, ?_, rfl, ?_, ?_⟩
  · exact (provisioner_selection brokerCollaborators library unmarshalUnit "worker"
      failingCallback { Confirm := false } 0).2.1 brokerInstance 0 mixedSpec "broker" 0
      rfl rfl rfl (by decide)
  · exact (provisioner_selection brokerCollaborators library unmarshalUnit "nobody"
      failingCallback { Confirm := false } 0).2.1 brokerInstance 0 mixedSpec "broker" 0
      rfl rfl rfl (by decide)
  · obtain ⟨instance_, w1, blockSpec, hget, hspec, hlen⟩ :=
      (provisioner_selection brokerCollaborators library unmarshalUnit "mailer"
        failingCallback { Confirm := false } 0).1 "app_mailer" 1 rfl
    cases hget
    cases hspec
    exact hlen
  · obtain ⟨publisher, world', hcall, hlen⟩ :=
      (provisioner_selection brokerCollaborators library unmarshalUnit "events"
        failingCallback { Confirm := false } 0).2.2.2.2 [brokerInstance] 0 rfl
        (by simp)
        (fun instanceId w => ⟨instanceId, w, rfl⟩)
        (fun _ _ name _ _ w => ⟨name, w + 1, rfl⟩)
        (by
          intro instance_ hi
          simp only [List.mem_singleton] at hi
          subst hi
          refine ⟨mixedSpec, rfl, by decide, ?_⟩
          intro d hd
          have hsel : selectExchanges mixedSpec.Consumers "events"
              brokerInstance.Connections [] = [ordersExchange, auditExchange] := rfl
          rw [hsel] at hd
          simp only [List.mem_cons, List.mem_singleton, List.not_mem_nil, or_false] at hd
          rcases hd with rfl | rfl
          · exact ⟨_, rfl, rfl⟩
          · exact ⟨_, rfl, rfl⟩)
    have hrun : CreatePublisherWithOptions brokerCollaborators library "events"
        { Confirm := false } 0
        = Outcome.returned
            (Except.ok { appId := "app_events", publishers := ["orders", "audit"] }, 2) := rfl
    rw [hrun] at hcall
    simp only [Outcome.returned.injEq, Prod.mk.injEq, Except.ok.injEq] at hcall
    obtain ⟨hp, hw⟩ := hcall
    subst hp
    subst hw
    exact ⟨_, _, hrun, rfl, rfl, rfl⟩

/-! ## The bindings handed to the transport (`CreateConsumer`) -/

theorem getElem?_clearDestination :
    ∀ (store : List Binding) (pointer q : Nat),
      (clearDestination store pointer)[q]?
        = if q = pointer then
            (store[q]?).map (fun value => { value with DestinationName := "" })
          else store[q]? := by
  intro store
  induction store with
  | nil => intro pointer q; simp [clearDestination]
  | cons value rest ih =>
    intro pointer q
    cases pointer with
    | zero =>
      cases q with
      | zero => simp [clearDestination]
      | succ q => simp [clearDestination]
    | succ pointer =>
      cases q with
      | zero => simp [clearDestination]
      | succ q => simp [clearDestination, ih pointer q]

theorem getElem?_clearDestinations :
    ∀ (pointers : List Nat) (store : List Binding) (q : Nat), q ∈ pointers →
      (clearDestinations store pointers)[q]?
        = (store[q]?).map (fun value => { value with DestinationName := "" }) := by
  have keep : ∀ (pointers : List Nat) (store : List Binding) (q : Nat),
      (clearDestinations store pointers)[q]? = store[q]? ∨
      (clearDestinations store pointers)[q]?
        = (store[q]?).map (fun value => { value with DestinationName := "" }) := by
    intro pointers
    induction pointers with
    | nil => intro store q; exact Or.inl rfl
    | cons pointer rest ih =>
      intro store q
      rw [clearDestinations]
      rcases ih (clearDestination store pointer) q with h | h
      · rw [h, getElem?_clearDestination]
        by_cases hq : q = pointer
        · simp [hq]
        · simp [hq]
      · rw [h, getElem?_clearDestination]
        by_cases hq : q = pointer
        · right
          simp only [hq, if_true, Option.map_map]
          rfl
        · simp [hq]
  intro pointers
  induction pointers with
  | nil => intro store q hq; cases hq
  | cons pointer rest ih =>
    intro store q hq
    rw [clearDestinations]
    by_cases hin : q ∈ rest
    · rw [ih _ q hin, getElem?_clearDestination]
      by_cases hp : q = pointer
      · simp only [hp, if_true, Option.map_map]
        rfl
      · simp [hp]
    · have hp : q = pointer := by
        rcases List.mem_cons.1 hq with h | h
        · exact h
        · exact absurd h hin
      rcases keep rest (clearDestination store pointer) q with h | h
      · rw [h, getElem?_clearDestination]
        simp [hp]
      · rw [h, getElem?_clearDestination]
        simp only [hp, if_true, Option.map_map]
        rfl

theorem dereferencePointers_congr (f : Binding → Binding) (changed store : List Binding) :
    ∀ (pointers : List Nat), (∀ q ∈ pointers, changed[q]? = (store[q]?).map f) →
      dereferencePointers changed pointers
        = (dereferencePointers store pointers).map (List.map f) := by
  intro pointers
  induction pointers with
  | nil => intro _; rfl
  | cons pointer rest ih =>
    intro h
    rw [dereferencePointers, dereferencePointers, h pointer (List.mem_cons_self _ _),
      ih (fun q hq => h q (List.mem_cons_of_mem _ hq))]
    cases store[pointer]? with
    | none => rfl
    | some value =>
      cases dereferencePointers store rest with
      | none => rfl
      | some values => rfl

theorem dereferencePointers_allocate (values : List Binding) :
    dereferencePointers values (List.range values.length) = some values := by
  induction values using List.reverseRecOn with
  | nil => rfl
  | append_singleton front last ih =>
    have hfront : dereferencePointers (front ++ [last]) (List.range front.length)
        = some front := by
      have := dereferencePointers_congr id (front ++ [last]) front (List.range front.length)
        (by
          intro q hq
          have hlt : q < front.length := List.mem_range.1 hq
          simp [List.getElem?_append_left hlt])
      rw [this, ih]
      simp
    have hlast : dereferencePointers (front ++ [last]) [front.length] = some [last] := by
      simp [dereferencePointers]
    have happ : ∀ (store : List Binding) (ps qs : List Nat) (xs ys : List Binding),
        dereferencePointers store ps = some xs → dereferencePointers store qs = some ys →
        dereferencePointers store (ps ++ qs) = some (xs ++ ys) := by
      intro store ps
      induction ps with
      | nil =>
        intro qs xs ys h1 h2
        simp only [dereferencePointers, Option.some.injEq] at h1
        subst h1
        simpa using h2
      | cons p ps ihp =>
        intro qs xs ys h1 h2
        rw [dereferencePointers] at h1
        rw [List.cons_append, dereferencePointers]
        cases hp : store[p]? with
        | none => simp [hp] at h1
        | some value =>
          cases hps : dereferencePointers store ps with
          | none => simp [hp, hps] at h1
          | some values =>
            simp only [hp, hps, Option.some.injEq] at h1
            subst h1
            rw [ihp qs values ys hps h2]
            rfl
    rw [List.length_append, List.length_singleton, List.range_succ]
    exact happ _ _ _ _ _ hfront hlast

theorem resolveBindings_destination {ext : External} {blockSpec : BlockSpec} {dt dn : String}
    {r : ResolveResult} {bindings : List Binding}
    (h : resolveBindings ext blockSpec dt dn = Outcome.returned r)
    (hb : r.bindings = some bindings) : ∀ b ∈ bindings, b.DestinationName = dn := by
  obtain ⟨schema, _, hr⟩ := resolveBindings_returned h
  subst hr
  rcases resolveGroups_shape ext blockSpec.Consumers dt dn schema.Exchanges [] []
    with ⟨B, E, hok⟩ | ⟨e, herr⟩
  · obtain ⟨newB, _, hres, hB, _, _⟩ := resolveGroups_ok ext blockSpec.Consumers dt dn
      schema.Exchanges [] [] (by rw [hok])
    rw [hres] at hb
    simp only [List.nil_append, Option.some.injEq] at hb
    subst hb
    intro b hbm
    obtain ⟨p, _, hE⟩ := forall₂_exists_left hB b hbm
    exact hE.1
  · rw [herr] at hb
    cases hb

/-- C11: in `CreateConsumer`, when one queue definition is selected and the
bindings resolve for (queue, its metadata name), the transport constructor is
called with those bindings, each with its destination name replaced by the
requested name of the queue declaration `asQueue queue`: the empty string for
every binding of an exclusive queue, the declared name otherwise; type,
exchange name, routing key, args and declare flag are as resolved. The
assignments made through the binding pointers are the ones seen when the
pointers are dereferenced. -/
theorem CreateConsumer_bindings {T World RawSpec Conn RmqConsumer RmqPublisher : Type}
    (env : Collaborators World RawSpec Conn RmqConsumer RmqPublisher) (ext : External)
    (Unmarshal : List UInt8 → Except String T) (resourceName : String)
    (callback : MessageHandler T World) (world : World)
    (instance_ : BlockInstanceDetails RawSpec) (w1 : World) (blockSpec : BlockSpec)
    (conn : Conn) (w2 : World) (queue : QueueResource) (resolved : ResolveResult)
    (bindings : List Binding) (instanceId : String) (w3 : World)
    (hget : env.GetInstanceForConsumer resourceName world = (Except.ok instance_, w1))
    (hspec : toBlockSpec env instance_ = Except.ok blockSpec)
    (hconn : env.ConnectToInstance instance_.InstanceId w1 = (Except.ok conn, w2))
    (hsel : selectQueues blockSpec.Providers resourceName instance_.Connections [] = [queue])
    (hres : resolveBindings ext blockSpec BindingTypeQueue queue.Metadata.Name
      = Outcome.returned resolved)
    (hok : resolved.err = none) (hb : resolved.bindings = some bindings)
    (hid : env.GetInstanceId w2 = (instanceId, w3)) :
    ∃ handed,
      CreateConsumer env ext Unmarshal resourceName callback world
        = Outcome.returned
            (env.NewConsumer conn (createHandler Unmarshal callback) (asQueue queue).Name
              (instanceId ++ "_" ++ resourceName) (asQueue queue) handed
              (dereferenceSlice resolved.exchanges) w3) ∧
      handed = bindings.map
        (fun binding => { binding with DestinationName := (asQueue queue).Name }) ∧
      List.Forall₂
        (fun (binding given : Binding) =>
          given.DestinationName = (asQueue queue).Name ∧
          given.DestinationType = binding.DestinationType ∧
          given.ExchangeName = binding.ExchangeName ∧
          given.RoutingKey = binding.RoutingKey ∧
          given.Args = binding.Args ∧ given.Declare = binding.Declare)
        bindings handed ∧
      (queue.Spec.Exclusive = true → ∀ given ∈ handed, given.DestinationName = "") ∧
      (queue.Spec.Exclusive = false →
        ∀ given ∈ handed, given.DestinationName = queue.Metadata.Name) ∧
      ((asQueue queue).Name = "" →
        dereferencePointers
          (clearDestinations (allocateBindings bindings).1 (allocateBindings bindings).2)
          (allocateBindings bindings).2 = some handed) ∧
      ((asQueue queue).Name ≠ "" →
        dereferencePointers (allocateBindings bindings).1 (allocateBindings bindings).2
          = some handed) := by
  have hdest := resolveBindings_destination hres hb
  have hkeep : (asQueue queue).Name ≠ "" →
      bindings.map (fun binding => { binding with DestinationName := (asQueue queue).Name })
        = bindings := by
    intro hne
    have hname : (asQueue queue).Name = queue.Metadata.Name := by
      cases hx : queue.Spec.Exclusive with
      | true => exact absurd (by simp [asQueue, hx]) hne
      | false => simp [asQueue, hx]
    rw [hname]
    conv_rhs => rw [← List.map_id bindings]
    apply List.map_congr_left
    intro b hbm
    have := hdest b hbm
    cases b
    simp_all
  refine ⟨bindings.map
    (fun binding => { binding with DestinationName := (asQueue queue).Name }), ?_, rfl, ?_, ?_,
    ?_, ?_, ?_⟩
  · unfold CreateConsumer
    simp only [hget, hspec, hconn, hsel, hres, hok, hb, hid]
    by_cases hn : (asQueue queue).Name = ""
    · simp only [hn, if_true, Option.map_some', dereferenceSlice]
    · simp only [hn, if_false, dereferenceSlice]
      rw [hkeep hn]
  · rw [List.forall₂_map_right_iff]
    exact List.forall₂_same.2 (fun b _ => ⟨rfl, rfl, rfl, rfl, rfl, rfl⟩)
  · intro hx given hg
    obtain ⟨b, _, rfl⟩ := List.mem_map.1 hg
    simp [asQueue, hx]
  · intro hx given hg
    obtain ⟨b, _, rfl⟩ := List.mem_map.1 hg
    simp [asQueue, hx]
  · intro hn
    simp only [allocateBindings]
    rw [dereferencePointers_congr (fun value => { value with DestinationName := "" })
      _ bindings _ (fun q hq => getElem?_clearDestinations _ bindings q hq),
      dereferencePointers_allocate, hn]
    rfl
  · intro hn
    simp only [allocateBindings]
    rw [dereferencePointers_allocate, hkeep hn]

/-- Witness of C11: the consumer `responder` is connected to the exclusive
queue `replies`, which `mixedSpec` binds to `orders` with key `reply`; the
consumer is created with that binding, its destination name emptied. -/
theorem CreateConsumer_bindings_witness :
    resolveBindings library mixedSpec BindingTypeQueue "replies"
      = Outcome.returned
          { bindings := some [replyBinding], exchanges := some [asExchange ordersExchange],
            err := none } ∧
    CreateConsumer recordingCollaborators library unmarshalUnit "responder" failingCallback 0
      = Outcome.returned
          (Except.ok [{ replyBinding with DestinationName := "" }], 1) ∧
    dereferencePointers (clearDestinations [replyBinding] [0]) [0]
      = some [{ replyBinding with DestinationName := "" }] := by
  obtain ⟨handed, hcall, hmap, _, _, _, hptr, _⟩ :=
    CreateConsumer_bindings recordingCollaborators library unmarshalUnit "responder"
      failingCallback 0 responderInstance 0 mixedSpec "broker" 0 repliesQueue
      { bindings := some [replyBinding], exchanges := some [asExchange ordersExchange],
        err := none }
      [replyBinding] "app" 0 rfl rfl rfl rfl rfl rfl rfl rfl
  subst hmap
  exact ⟨rfl, hcall, hptr rfl⟩

end Rabbitmq
